import Mathlib

/-!
Shallow embedding of the resumable chunked media-upload client of this
repository (the UploadProvider context: performUpload, pauseUpload,
resumeUpload, cancelUpload, retryUpload, startPostUpload, updateUpload,
clearUpload, CHUNK_SIZE).

The React provider state (currentUpload, uploadFile, abortController,
plus the localStorage mirror of currentUpload) is passed explicitly as a
ProviderState value.  Network interactions are driven by an explicit
environment value describing the outcome of each request; every request
and every persisted state change is recorded in an event trace.  The
interleaving of pauseUpload / cancelUpload with the in-flight request is
encoded in the environment, following the single-threaded JS event loop:
a handler that aborts the in-flight request finishes all of its own
synchronous state writes before the rejected request continuation (the
catch block of the loop) runs.
-/

inductive UploadStatus
  | uploading
  | paused
  | error
  | completed
  | cancelled
deriving DecidableEq, Repr

structure PostData where
  type : String
  content : Option String
  mentions : Option String
  tags : Option String
deriving DecidableEq, Repr

structure UploadSession where
  uploadId : String
  fileName : String
  fileSize : Nat
  fileType : String
  totalChunks : Nat
  uploadedChunks : Nat
  progress : Nat
  postData : PostData
  status : UploadStatus
  error : Option String
deriving DecidableEq, Repr

/-- The provider state: currentUpload and uploadFile are the two useState
cells, controllerAborted models the abortController cell (some b means a
controller is registered and b says whether abort was called on it),
storage models the localStorage record mirrored from currentUpload by the
persistence effect. -/
structure ProviderState where
  currentUpload : Option UploadSession
  uploadFile : Option (List Nat)
  controllerAborted : Option Bool
  storage : Option UploadSession
deriving DecidableEq, Repr

/-- Observable events of a run: requests issued to the server, abort
calls on the transport, and every value persisted to the durable store. -/
inductive Event
  | initReq
  | statusReq (uploadId : String)
  | chunkSent (uploadId : String) (index : Nat) (bytes : List Nat)
  | chunkAcked (index : Nat) (totalReceived : Nat) (progress : Nat)
  | completeReq (uploadId : String)
  | deleteReq (uploadId : String)
  | abortSignal
  | stored (session : Option UploadSession)
  | logDeleteFailure
deriving DecidableEq, Repr

def CHUNK_SIZE : Nat := 8 * 1024 * 1024

/-- Blob.slice on a byte list: the bytes in the half-open range [a, b). -/
def fileSlice (file : List Nat) (a b : Nat) : List Nat :=
  (file.drop a).take (b - a)

/-- setCurrentUpload together with the persistence effect that mirrors
currentUpload into localStorage on every change. -/
def setCurrent (u : Option UploadSession) (s : ProviderState) :
    ProviderState × List Event :=
  ({ s with currentUpload := u, storage := u }, [Event.stored u])

/-- updateUpload: setCurrentUpload(prev ? merge(prev, updates) : null).
The partial-object spread at each call site is passed as the field
update function f; a null current session is mapped to null. -/
def updateUpload (f : UploadSession → UploadSession) (s : ProviderState) :
    ProviderState × List Event :=
  setCurrent (s.currentUpload.map f) s

/-- clearUpload: null the session and file, abort and drop any registered
controller, remove the durable record. -/
def clearUpload (s : ProviderState) : ProviderState × List Event :=
  let (s1, e1) := setCurrent none s
  let s2 := { s1 with uploadFile := none }
  match s.controllerAborted with
  | some _ => ({ s2 with controllerAborted := none }, e1 ++ [Event.abortSignal])
  | none => (s2, e1)

/-- pauseUpload: abort and drop the registered controller, then set
status to paused. -/
def pauseUpload (s : ProviderState) : ProviderState × List Event :=
  let (s1, e1) :=
    match s.controllerAborted with
    | some _ => ({ s with controllerAborted := none }, [Event.abortSignal])
    | none => (s, ([] : List Event))
  let (s2, e2) := updateUpload (fun u => { u with status := UploadStatus.paused }) s1
  (s2, e1 ++ e2)

/-- cancelUpload: no-op without a session; otherwise abort the in-flight
transport, issue the best-effort server-side DELETE (its failure is only
logged), then clearUpload.  delOk says whether the DELETE round trip
succeeded; it influences nothing but the log. -/
def cancelUpload (delOk : Bool) (s : ProviderState) : ProviderState × List Event :=
  match s.currentUpload with
  | none => (s, [])
  | some u =>
    let (s1, e1) :=
      match s.controllerAborted with
      | some _ => ({ s with controllerAborted := some true }, [Event.abortSignal])
      | none => (s, ([] : List Event))
    let delEvs :=
      Event.deleteReq u.uploadId ::
        (if delOk then [] else [Event.logDeleteFailure])
    let (s2, e2) := clearUpload s1
    (s2, e1 ++ delEvs ++ e2)

/-- Outcome of the status request issued on resume (uploadedChunks > 0):
the request can fail on the network (the catch only warns), come back
non-ok (ignored), or come back ok with the server totals. -/
inductive StatusEnv
  | netFail
  | notOk
  | ok (totalReceived : Nat) (progress : Nat)
deriving DecidableEq, Repr

/-- Outcome of one chunk PATCH, including user actions interleaved with
it.  pauseDuringReq: pauseUpload ran while the request was in flight, so
the request rejects with the abort flag set after pauseUpload finished
its own writes.  pauseBeforeSend: pauseUpload ran between requests, so
the abort flag is observed at the top of the loop body. -/
inductive ChunkEnv
  | ok (totalReceived : Nat) (progress : Nat)
  | failErr (msg : String)
  | pauseDuringReq
  | pauseBeforeSend
deriving DecidableEq, Repr

/-- Outcome of the completion POST. -/
inductive CompleteEnv
  | ok
  | fail (msg : String)
deriving DecidableEq, Repr

structure UploadEnv where
  statusEnv : StatusEnv
  chunkEnv : Nat → ChunkEnv
  completeEnv : CompleteEnv

/-- How the transfer loop ended: all chunks acknowledged, the early
return of the aborted-request catch, or a thrown error (caught by the
outer catch of performUpload). -/
inductive LoopExit
  | finished
  | returnedEarly
  | threw (msg : String)
deriving DecidableEq, Repr

/-- The for-loop of performUpload over the remaining chunk indices.
Each iteration checks the abort flag, slices the file at
[i * CHUNK_SIZE, min((i+1) * CHUNK_SIZE, file.size)), sends the chunk,
and on success updates the session from the server reply. -/
def uploadLoop (file : List Nat) (uid : String) (env : Nat → ChunkEnv) :
    List Nat → ProviderState → ProviderState × List Event × LoopExit
  | [], s => (s, [], LoopExit.finished)
  | i :: rest, s =>
    match env i with
    | ChunkEnv.pauseBeforeSend =>
      let (s1, e1) := pauseUpload s
      (s1, e1, LoopExit.threw "Upload cancelled")
    | ChunkEnv.ok tr pr =>
      let bytes := fileSlice file (i * CHUNK_SIZE) (min ((i + 1) * CHUNK_SIZE) file.length)
      let (s1, e1) := updateUpload
        (fun u => { u with uploadedChunks := tr, progress := pr,
                           status := UploadStatus.uploading }) s
      let (s2, e2, ex) := uploadLoop file uid env rest s1
      (s2, Event.chunkSent uid i bytes :: Event.chunkAcked i tr pr :: (e1 ++ e2), ex)
    | ChunkEnv.failErr msg =>
      let bytes := fileSlice file (i * CHUNK_SIZE) (min ((i + 1) * CHUNK_SIZE) file.length)
      (s, [Event.chunkSent uid i bytes], LoopExit.threw ("Chunk upload failed: " ++ msg))
    | ChunkEnv.pauseDuringReq =>
      let bytes := fileSlice file (i * CHUNK_SIZE) (min ((i + 1) * CHUNK_SIZE) file.length)
      let (s1, e1) := pauseUpload s
      let (s2, e2) := updateUpload (fun u => { u with status := UploadStatus.cancelled }) s1
      (s2, Event.chunkSent uid i bytes :: (e1 ++ e2), LoopExit.returnedEarly)

/-- The resume reconciliation at the top of performUpload: when
uploadedChunks > 0 the server status is requested first; an ok reply
overwrites the resume point and the stored counters with the server
totals, any failure is swallowed and the local count is kept.  Returns
the resume point, the state, and the events of this phase. -/
def reconcile (uploadData : UploadSession) (senv : StatusEnv)
    (s0 : ProviderState) : Nat × ProviderState × List Event :=
  let c0 := uploadData.uploadedChunks
  if 0 < c0 then
    match senv with
    | StatusEnv.ok tr pr =>
      let (sa, ea) := updateUpload
        (fun u => { u with uploadedChunks := tr, progress := pr }) s0
      (tr, sa, Event.statusReq uploadData.uploadId :: ea)
    | StatusEnv.notOk => (c0, s0, [Event.statusReq uploadData.uploadId])
    | StatusEnv.netFail => (c0, s0, [Event.statusReq uploadData.uploadId])
  else (c0, s0, ([] : List Event))

/-- What follows the chunk loop in performUpload: the early return of
the aborted-request catch ends silently; a thrown failure is turned into
status error by the outer catch; when the loop finished, the completion
POST is issued, and on its success status completed / progress 100 are
stored and the delayed clearUpload is scheduled (the returned Bool).
The finally block drops the controller in every case. -/
def afterLoop (uid : String) (cenv : CompleteEnv)
    (r : ProviderState × List Event × LoopExit) :
    ProviderState × List Event × Bool :=
  match r with
  | (s2, evs1, LoopExit.returnedEarly) =>
    ({ s2 with controllerAborted := none }, evs1, false)
  | (s2, evs1, LoopExit.threw msg) =>
    let (s3, e3) := updateUpload
      (fun u => { u with status := UploadStatus.error, error := some msg }) s2
    ({ s3 with controllerAborted := none }, evs1 ++ e3, false)
  | (s2, evs1, LoopExit.finished) =>
    match cenv with
    | CompleteEnv.ok =>
      let (s3, e3) := updateUpload
        (fun u => { u with status := UploadStatus.completed, progress := 100 }) s2
      ({ s3 with controllerAborted := none },
        evs1 ++ (Event.completeReq uid :: e3), true)
    | CompleteEnv.fail msg =>
      let (s3, e3) := updateUpload
        (fun u => { u with status := UploadStatus.error,
                           error := some ("Upload completion failed: " ++ msg) }) s2
      ({ s3 with controllerAborted := none },
        evs1 ++ (Event.completeReq uid :: e3), false)

/-- performUpload: register a fresh controller, reconcile with the
server status when resuming (uploadedChunks > 0), run the chunk loop
over the remaining indices, then the completion / outer-catch phase. -/
def performUpload (file : List Nat) (uploadData : UploadSession)
    (env : UploadEnv) (s : ProviderState) :
    ProviderState × List Event × Bool :=
  let s0 : ProviderState := { s with controllerAborted := some false }
  let rc := reconcile uploadData env.statusEnv s0
  let r := afterLoop uploadData.uploadId env.completeEnv
    (uploadLoop file uploadData.uploadId env.chunkEnv
      (List.range' rc.1 (uploadData.totalChunks - rc.1)) rc.2.1)
  (r.1, rc.2.2 ++ r.2.1, r.2.2)

/-- resumeUpload: only when a session and a file are in memory and the
status is paused; sets status uploading and re-enters performUpload with
the captured session value.  The Bool reports whether the transfer loop
was re-entered. -/
def resumeUpload (env : UploadEnv) (s : ProviderState) :
    ProviderState × List Event × Bool :=
  match s.currentUpload, s.uploadFile with
  | some u, some f =>
    if u.status = UploadStatus.paused then
      let p1 := updateUpload (fun v => { v with status := UploadStatus.uploading }) s
      let p2 := performUpload f u env p1.1
      (p2.1, p1.2 ++ p2.2.1, true)
    else (s, [], false)
  | some _, none => (s, [], false)
  | none, _ => (s, [], false)

/-- retryUpload: only when a session and a file are in memory and the
status is error; clears the error, sets status uploading and re-enters
performUpload with the captured session value. -/
def retryUpload (env : UploadEnv) (s : ProviderState) :
    ProviderState × List Event × Bool :=
  match s.currentUpload, s.uploadFile with
  | some u, some f =>
    if u.status = UploadStatus.error then
      let p1 := updateUpload
        (fun v => { v with status := UploadStatus.uploading, error := none }) s
      let p2 := performUpload f u env p1.1
      (p2.1, p1.2 ++ p2.2.1, true)
    else (s, [], false)
  | some _, none => (s, [], false)
  | none, _ => (s, [], false)

/-- The payload of startPostUpload. -/
structure StartData where
  type : String
  content : Option String
  mentions : Option String
  tags : Option String
  fileName : String
  fileType : String
  fileBytes : List Nat
deriving DecidableEq, Repr

/-- Outcome of the init POST. -/
inductive InitEnv
  | ok (uploadId : String) (totalChunks : Nat)
  | fail (msg : String)
deriving DecidableEq, Repr

/-- The fresh session built by startPostUpload from the init reply. -/
def initSession (data : StartData) (uploadId : String) (totalChunks : Nat) :
    UploadSession :=
  { uploadId := uploadId
    fileName := data.fileName
    fileSize := data.fileBytes.length
    fileType := data.fileType
    totalChunks := totalChunks
    uploadedChunks := 0
    progress := 0
    postData := { type := data.type, content := data.content,
                  mentions := data.mentions, tags := data.tags }
    status := UploadStatus.uploading
    error := none }

/-- startPostUpload: init the server session; on failure only a toast is
shown and nothing changes; on success overwrite the current session and
file unconditionally and start performUpload. -/
def startPostUpload (data : StartData) (ienv : InitEnv) (env : UploadEnv)
    (s : ProviderState) : ProviderState × List Event :=
  match ienv with
  | InitEnv.fail _ => (s, [Event.initReq])
  | InitEnv.ok uploadId totalChunks =>
    let sess := initSession data uploadId totalChunks
    let p1 := setCurrent (some sess) s
    let s2 := { p1.1 with uploadFile := some data.fileBytes }
    let p3 := performUpload data.fileBytes sess env s2
    (p3.1, Event.initReq :: (p1.2 ++ p3.2.1))

/-! Trace projections used to state the claims. -/

/-- Indices of the chunks that were actually transmitted, in trace order. -/
def sentIndices (evs : List Event) : List Nat :=
  evs.filterMap fun e =>
    match e with
    | Event.chunkSent _ i _ => some i
    | _ => none

/-- Restriction of a trace to chunk transmissions and acknowledgments. -/
def chunkEvs (evs : List Event) : List Event :=
  evs.filter fun e =>
    match e with
    | Event.chunkSent _ _ _ => true
    | Event.chunkAcked _ _ _ => true
    | _ => false

/-- The successive progress values persisted for a live session. -/
def progressList (evs : List Event) : List Nat :=
  evs.filterMap fun e =>
    match e with
    | Event.stored (some u) => some u.progress
    | _ => none

/-- The transmission of chunk i followed by its acknowledgment, when the
environment acknowledges it. -/
def okPair (uid : String) (file : List Nat) (env : Nat → ChunkEnv) (i : Nat) :
    List Event :=
  Event.chunkSent uid i
      (fileSlice file (i * CHUNK_SIZE) (min ((i + 1) * CHUNK_SIZE) file.length)) ::
    (match env i with
     | ChunkEnv.ok tr pr => [Event.chunkAcked i tr pr]
     | _ => [])

/-- m consecutive send/acknowledge groups starting at index start: chunk
indices ascend one by one and each transmission is settled before the
next begins. -/
def okPairSeq (uid : String) (file : List Nat) (env : Nat → ChunkEnv) :
    Nat → Nat → List Event
  | _, 0 => []
  | start, m + 1 =>
    okPair uid file env start ++ okPairSeq uid file env (start + 1) m

/-! Spec-modelled server session store (only its client is among the
sources; the store itself is modelled from the spec). -/

/-- Modelled from the spec: the server Upload Session Store record is not
part of the sources here.  Per the spec it keeps, per uploadId, the fixed
totalChunks and the set of distinct chunk indices received; patch is
idempotent per index (a resend overwrites, not duplicates). -/
structure ServerSession where
  totalChunks : Nat
  received : Finset Nat
deriving DecidableEq

/-- Modelled from the spec: totalReceived is the count of distinct chunk
indices received so far, not a running sum. -/
def ServerSession.totalReceived (ss : ServerSession) : Nat :=
  ss.received.card

/-- Modelled from the spec: server progress is
floor(totalReceived / totalChunks * 100). -/
def ServerSession.progressOf (ss : ServerSession) : Nat :=
  ss.totalReceived * 100 / ss.totalChunks

/-- Modelled from the spec: patch writes the chunk into its slot; a
resend of an already received index is a pure overwrite. -/
def serverPatch (ss : ServerSession) (i : Nat) : ServerSession :=
  { ss with received := insert i ss.received }

/-- Sequentially applying patch for each index of a list. -/
def serverRun (ss : ServerSession) (idxs : List Nat) : ServerSession :=
  idxs.foldl serverPatch ss

/-- The chunk environment produced by the spec-modelled store when the
client patches the indices from start upward in order: the reply to
chunk i reflects the store right after patches start, start+1, ..., i. -/
def serverChunkEnv (ss : ServerSession) (start : Nat) : Nat → ChunkEnv :=
  fun i =>
    let ssi := serverRun ss (List.range' start (i + 1 - start))
    ChunkEnv.ok ssi.totalReceived ssi.progressOf

/-! Basic facts about the small operations. -/

theorem updateUpload_fst (f : UploadSession → UploadSession) (s : ProviderState) :
    (updateUpload f s).1 =
      { s with currentUpload := s.currentUpload.map f,
               storage := s.currentUpload.map f } := rfl

theorem updateUpload_snd (f : UploadSession → UploadSession) (s : ProviderState) :
    (updateUpload f s).2 = [Event.stored (s.currentUpload.map f)] := rfl

theorem pauseUpload_currentUpload (s : ProviderState) :
    (pauseUpload s).1.currentUpload =
      s.currentUpload.map (fun u => { u with status := UploadStatus.paused }) := by
  cases h : s.controllerAborted <;>
    simp [pauseUpload, h, updateUpload, setCurrent]

theorem pauseUpload_uploadFile (s : ProviderState) :
    (pauseUpload s).1.uploadFile = s.uploadFile := by
  cases h : s.controllerAborted <;>
    simp [pauseUpload, h, updateUpload, setCurrent]

theorem pauseUpload_events (s : ProviderState) :
    (pauseUpload s).2 =
      (match s.controllerAborted with
        | some _ => [Event.abortSignal]
        | none => []) ++
        [Event.stored (s.currentUpload.map
          (fun u => { u with status := UploadStatus.paused }))] := by
  cases h : s.controllerAborted <;>
    simp [pauseUpload, h, updateUpload, setCurrent]

theorem sentIndices_append (a b : List Event) :
    sentIndices (a ++ b) = sentIndices a ++ sentIndices b := by
  simp [sentIndices]

theorem chunkEvs_append (a b : List Event) :
    chunkEvs (a ++ b) = chunkEvs a ++ chunkEvs b := by
  simp [chunkEvs]

theorem progressList_append (a b : List Event) :
    progressList (a ++ b) = progressList a ++ progressList b := by
  simp [progressList]

theorem sentIndices_pauseUpload (s : ProviderState) :
    sentIndices (pauseUpload s).2 = [] := by
  cases h : s.controllerAborted <;>
    simp [pauseUpload, h, updateUpload, setCurrent, sentIndices]

theorem chunkEvs_pauseUpload (s : ProviderState) :
    chunkEvs (pauseUpload s).2 = [] := by
  cases h : s.controllerAborted <;>
    simp [pauseUpload, h, updateUpload, setCurrent, chunkEvs]

/-! Structural lemmas about the transfer loop. -/

theorem uploadLoop_preserves_none (file : List Nat) (uid : String)
    (env : Nat → ChunkEnv) :
    ∀ (idxs : List Nat) (s : ProviderState), s.currentUpload = none →
      (uploadLoop file uid env idxs s).1.currentUpload = none := by
  intro idxs
  induction idxs with
  | nil => intro s h; simpa [uploadLoop] using h
  | cons i rest ih =>
    intro s h
    cases hc : env i with
    | ok tr pr =>
      simp only [uploadLoop, hc]
      exact ih _ (by simp [updateUpload, setCurrent, h])
    | failErr msg => simpa [uploadLoop, hc] using h
    | pauseDuringReq =>
      simp [uploadLoop, hc, updateUpload, setCurrent, pauseUpload_currentUpload, h]
    | pauseBeforeSend =>
      simp [uploadLoop, hc, pauseUpload_currentUpload, h]

theorem uploadLoop_preserves_uploadFile (file : List Nat) (uid : String)
    (env : Nat → ChunkEnv) :
    ∀ (idxs : List Nat) (s : ProviderState),
      (uploadLoop file uid env idxs s).1.uploadFile = s.uploadFile := by
  intro idxs
  induction idxs with
  | nil => intro s; simp [uploadLoop]
  | cons i rest ih =>
    intro s
    cases hc : env i with
    | ok tr pr =>
      simp only [uploadLoop, hc]
      rw [ih]
      simp [updateUpload, setCurrent]
    | failErr msg => simp [uploadLoop, hc]
    | pauseDuringReq =>
      simp [uploadLoop, hc, updateUpload, setCurrent, pauseUpload_uploadFile]
    | pauseBeforeSend =>
      simp [uploadLoop, hc, pauseUpload_uploadFile]

theorem uploadLoop_preserves_isSome (file : List Nat) (uid : String)
    (env : Nat → ChunkEnv) :
    ∀ (idxs : List Nat) (s : ProviderState),
      (uploadLoop file uid env idxs s).1.currentUpload.isSome =
        s.currentUpload.isSome := by
  intro idxs
  induction idxs with
  | nil => intro s; simp [uploadLoop]
  | cons i rest ih =>
    intro s
    cases hc : env i with
    | ok tr pr =>
      simp only [uploadLoop, hc]
      rw [ih]
      simp [updateUpload, setCurrent]
    | failErr msg => simp [uploadLoop, hc]
    | pauseDuringReq =>
      simp [uploadLoop, hc, updateUpload, setCurrent, pauseUpload_currentUpload]
    | pauseBeforeSend =>
      simp [uploadLoop, hc, pauseUpload_currentUpload]

theorem uploadLoop_sent_bytes (file : List Nat) (uid : String)
    (env : Nat → ChunkEnv) :
    ∀ (idxs : List Nat) (s : ProviderState) (uid' : String) (j : Nat)
      (b : List Nat),
      Event.chunkSent uid' j b ∈ (uploadLoop file uid env idxs s).2.1 →
      uid' = uid ∧
        b = fileSlice file (j * CHUNK_SIZE)
              (min ((j + 1) * CHUNK_SIZE) file.length) := by
  intro idxs
  induction idxs with
  | nil => intro s uid' j b h; simp [uploadLoop] at h
  | cons i rest ih =>
    intro s uid' j b h
    cases hc : env i with
    | ok tr pr =>
      simp only [uploadLoop, hc, List.mem_cons, List.mem_append] at h
      rcases h with h | h | h | h
      · cases h; exact ⟨rfl, rfl⟩
      · cases h
      · simp [updateUpload, setCurrent] at h
      · exact ih _ uid' j b h
    | failErr msg =>
      simp only [uploadLoop, hc, List.mem_singleton] at h
      cases h; exact ⟨rfl, rfl⟩
    | pauseDuringReq =>
      simp only [uploadLoop, hc, List.mem_cons, List.mem_append] at h
      rcases h with h | h | h
      · cases h; exact ⟨rfl, rfl⟩
      · rw [pauseUpload_events] at h
        rcases List.mem_append.1 h with h | h
        · cases hca : s.controllerAborted <;> simp [hca] at h
        · simp at h
      · simp [updateUpload, setCurrent] at h
    | pauseBeforeSend =>
      simp only [uploadLoop, hc] at h
      rw [pauseUpload_events] at h
      rcases List.mem_append.1 h with h | h
      · cases hca : s.controllerAborted <;> simp [hca] at h
      · simp at h

theorem uploadLoop_sent_range (file : List Nat) (uid : String)
    (env : Nat → ChunkEnv) :
    ∀ (n start : Nat) (s : ProviderState),
      ∃ m, m ≤ n ∧
        sentIndices (uploadLoop file uid env (List.range' start n) s).2.1 =
          List.range' start m := by
  intro n
  induction n with
  | zero => intro start s; exact ⟨0, le_refl 0, by simp [uploadLoop, sentIndices]⟩
  | succ n ih =>
    intro start s
    rw [List.range'_succ]
    cases hc : env start with
    | ok tr pr =>
      obtain ⟨m, hm, hsent⟩ := ih (start + 1)
        ((updateUpload (fun u => { u with uploadedChunks := tr, progress := pr, status := UploadStatus.uploading }) s).1)
      refine ⟨m + 1, by omega, ?_⟩
      simp only [uploadLoop, hc, sentIndices, List.filterMap_cons, List.filterMap_append]
      simp only [sentIndices] at hsent
      rw [hsent]
      simp [updateUpload, setCurrent, List.range'_succ]
    | failErr msg =>
      exact ⟨1, by omega, by simp [uploadLoop, hc, sentIndices]⟩
    | pauseDuringReq =>
      refine ⟨1, by omega, ?_⟩
      simp only [uploadLoop, hc, sentIndices, List.filterMap_cons, List.filterMap_append]
      have h1 := sentIndices_pauseUpload s
      simp only [sentIndices] at h1
      rw [h1]
      simp [updateUpload, setCurrent]
    | pauseBeforeSend =>
      refine ⟨0, by omega, ?_⟩
      simp only [uploadLoop, hc]
      exact sentIndices_pauseUpload s

theorem uploadLoop_first_send (file : List Nat) (uid : String)
    (env : Nat → ChunkEnv) (n start : Nat) (s : ProviderState)
    (hn : 0 < n) (hp : env start ≠ ChunkEnv.pauseBeforeSend) :
    Event.chunkSent uid start
        (fileSlice file (start * CHUNK_SIZE)
          (min ((start + 1) * CHUNK_SIZE) file.length)) ∈
      (uploadLoop file uid env (List.range' start n) s).2.1 := by
  obtain ⟨n', rfl⟩ : ∃ n', n = n' + 1 := ⟨n - 1, by omega⟩
  rw [List.range'_succ]
  cases hc : env start with
  | ok tr pr => simp [uploadLoop, hc]
  | failErr msg => simp [uploadLoop, hc]
  | pauseDuringReq => simp [uploadLoop, hc]
  | pauseBeforeSend => exact absurd hc hp

theorem uploadLoop_fail_at (file : List Nat) (uid : String)
    (env : Nat → ChunkEnv) :
    ∀ (n start : Nat) (s : ProviderState) (i : Nat) (msg : String),
      start ≤ i → i < start + n →
      (∀ j, start ≤ j → j < i → ∃ a b, env j = ChunkEnv.ok a b) →
      env i = ChunkEnv.failErr msg →
      (uploadLoop file uid env (List.range' start n) s).2.2 =
          LoopExit.threw ("Chunk upload failed: " ++ msg) ∧
        sentIndices (uploadLoop file uid env (List.range' start n) s).2.1 =
          List.range' start (i + 1 - start) := by
  intro n
  induction n with
  | zero => intro start s i msg h1 h2; omega
  | succ n ih =>
    intro start s i msg h1 h2 hok hfail
    rw [List.range'_succ]
    rcases Nat.eq_or_lt_of_le h1 with rfl | hlt
    · constructor
      · simp [uploadLoop, hfail]
      · simp [uploadLoop, hfail, sentIndices]
    · obtain ⟨a, b, hab⟩ := hok start (le_refl start) hlt
      have hrec := ih (start + 1)
        ((updateUpload (fun u => { u with uploadedChunks := a, progress := b, status := UploadStatus.uploading }) s).1) i msg (by omega) (by omega)
        (fun j hj1 hj2 => hok j (by omega) hj2) hfail
      constructor
      · simp only [uploadLoop, hab]
        exact hrec.1
      · simp only [uploadLoop, hab, sentIndices, List.filterMap_cons,
          List.filterMap_append]
        simp only [sentIndices] at hrec
        rw [hrec.2]
        simp only [updateUpload, setCurrent]
        have : i + 1 - start = (i + 1 - (start + 1)) + 1 := by omega
        rw [this, List.range'_succ]
        simp

theorem uploadLoop_chunkEvs (file : List Nat) (uid : String)
    (env : Nat → ChunkEnv) :
    ∀ (n start : Nat) (s : ProviderState),
      ∃ m, m ≤ n ∧
        chunkEvs (uploadLoop file uid env (List.range' start n) s).2.1 =
          okPairSeq uid file env start m := by
  intro n
  induction n with
  | zero => intro start s; exact ⟨0, le_refl 0, by simp [uploadLoop, chunkEvs, okPairSeq]⟩
  | succ n ih =>
    intro start s
    rw [List.range'_succ]
    cases hc : env start with
    | ok tr pr =>
      obtain ⟨m, hm, hck⟩ := ih (start + 1)
        ((updateUpload (fun u => { u with uploadedChunks := tr, progress := pr, status := UploadStatus.uploading }) s).1)
      refine ⟨m + 1, by omega, ?_⟩
      simp only [uploadLoop, hc, chunkEvs, List.filter_cons, List.filter_append]
      simp only [chunkEvs] at hck
      rw [hck]
      simp [okPairSeq, okPair, hc, updateUpload, setCurrent]
    | failErr msg =>
      exact ⟨1, by omega, by simp [uploadLoop, hc, chunkEvs, okPairSeq, okPair]⟩
    | pauseDuringReq =>
      refine ⟨1, by omega, ?_⟩
      simp only [uploadLoop, hc, chunkEvs, List.filter_cons, List.filter_append]
      have h1 := chunkEvs_pauseUpload s
      simp only [chunkEvs] at h1
      rw [h1]
      simp [okPairSeq, okPair, hc, updateUpload, setCurrent]
    | pauseBeforeSend =>
      refine ⟨0, by omega, ?_⟩
      simp only [uploadLoop, hc, okPairSeq]
      exact chunkEvs_pauseUpload s

/-! Projection lemmas about the phases of performUpload. -/

theorem afterLoop_trace (uid : String) (cenv : CompleteEnv)
    (s2 : ProviderState) (evs1 : List Event) (ex : LoopExit) :
    ∃ extra, (afterLoop uid cenv (s2, evs1, ex)).2.1 = evs1 ++ extra ∧
      sentIndices extra = [] ∧ chunkEvs extra = [] := by
  cases ex with
  | finished =>
    cases cenv with
    | ok =>
      refine ⟨Event.completeReq uid ::
        (updateUpload (fun u => { u with status := UploadStatus.completed, progress := 100 }) s2).2, ?_, ?_, ?_⟩
      · simp [afterLoop]
      · simp [sentIndices, updateUpload, setCurrent]
      · simp [chunkEvs, updateUpload, setCurrent]
    | fail msg =>
      refine ⟨Event.completeReq uid ::
        (updateUpload (fun u => { u with status := UploadStatus.error, error := some ("Upload completion failed: " ++ msg) }) s2).2, ?_, ?_, ?_⟩
      · simp [afterLoop]
      · simp [sentIndices, updateUpload, setCurrent]
      · simp [chunkEvs, updateUpload, setCurrent]
  | returnedEarly => exact ⟨[], by simp [afterLoop], rfl, rfl⟩
  | threw msg =>
    refine ⟨(updateUpload (fun u => { u with status := UploadStatus.error, error := some msg }) s2).2, ?_, ?_, ?_⟩
    · simp [afterLoop]
    · simp [sentIndices, updateUpload, setCurrent]
    · simp [chunkEvs, updateUpload, setCurrent]

theorem afterLoop_threw_state (uid : String) (cenv : CompleteEnv)
    (s2 : ProviderState) (evs1 : List Event) (msg : String) :
    (afterLoop uid cenv (s2, evs1, LoopExit.threw msg)).1.currentUpload =
      s2.currentUpload.map
        (fun u => { u with status := UploadStatus.error, error := some msg }) := by
  simp [afterLoop, updateUpload, setCurrent]

theorem afterLoop_preserves_none (uid : String) (cenv : CompleteEnv)
    (s2 : ProviderState) (evs1 : List Event) (ex : LoopExit)
    (h : s2.currentUpload = none) :
    (afterLoop uid cenv (s2, evs1, ex)).1.currentUpload = none := by
  cases ex with
  | finished => cases cenv <;> simp [afterLoop, updateUpload, setCurrent, h]
  | returnedEarly => simpa [afterLoop] using h
  | threw msg => simp [afterLoop, updateUpload, setCurrent, h]

theorem afterLoop_preserves_isSome (uid : String) (cenv : CompleteEnv)
    (s2 : ProviderState) (evs1 : List Event) (ex : LoopExit) :
    (afterLoop uid cenv (s2, evs1, ex)).1.currentUpload.isSome =
      s2.currentUpload.isSome := by
  cases ex with
  | finished => cases cenv <;> simp [afterLoop, updateUpload, setCurrent]
  | returnedEarly => simp [afterLoop]
  | threw msg => simp [afterLoop, updateUpload, setCurrent]

theorem afterLoop_preserves_uploadFile (uid : String) (cenv : CompleteEnv)
    (s2 : ProviderState) (evs1 : List Event) (ex : LoopExit) :
    (afterLoop uid cenv (s2, evs1, ex)).1.uploadFile = s2.uploadFile := by
  cases ex with
  | finished => cases cenv <;> simp [afterLoop, updateUpload, setCurrent]
  | returnedEarly => simp [afterLoop]
  | threw msg => simp [afterLoop, updateUpload, setCurrent]

theorem reconcile_trace (uploadData : UploadSession) (senv : StatusEnv)
    (s0 : ProviderState) :
    sentIndices (reconcile uploadData senv s0).2.2 = [] ∧
      chunkEvs (reconcile uploadData senv s0).2.2 = [] := by
  by_cases h : 0 < uploadData.uploadedChunks
  · cases senv <;>
      simp [reconcile, h, updateUpload, setCurrent, sentIndices, chunkEvs]
  · simp [reconcile, h, sentIndices, chunkEvs]

theorem reconcile_pos_ok (uploadData : UploadSession) (tr pr : Nat)
    (s0 : ProviderState) (h : 0 < uploadData.uploadedChunks) :
    reconcile uploadData (StatusEnv.ok tr pr) s0 =
      (tr, (updateUpload (fun u => { u with uploadedChunks := tr, progress := pr }) s0).1,
        Event.statusReq uploadData.uploadId ::
          (updateUpload (fun u => { u with uploadedChunks := tr, progress := pr }) s0).2) := by
  simp [reconcile, h]

theorem reconcile_zero (uploadData : UploadSession) (senv : StatusEnv)
    (s0 : ProviderState) (h : uploadData.uploadedChunks = 0) :
    reconcile uploadData senv s0 = (0, s0, []) := by
  cases senv <;> simp [reconcile, h]

/-- The resume point actually used by performUpload. -/
def puStart (ud : UploadSession) (senv : StatusEnv) (s : ProviderState) : Nat :=
  (reconcile ud senv { s with controllerAborted := some false }).1

/-- The provider state as the chunk loop starts. -/
def puState1 (ud : UploadSession) (senv : StatusEnv) (s : ProviderState) :
    ProviderState :=
  (reconcile ud senv { s with controllerAborted := some false }).2.1

/-- The chunk-loop part of a performUpload run. -/
def puLoop (file : List Nat) (ud : UploadSession) (env : UploadEnv)
    (s : ProviderState) : ProviderState × List Event × LoopExit :=
  uploadLoop file ud.uploadId env.chunkEnv
    (List.range' (puStart ud env.statusEnv s)
      (ud.totalChunks - puStart ud env.statusEnv s))
    (puState1 ud env.statusEnv s)

theorem performUpload_trace (file : List Nat) (ud : UploadSession)
    (env : UploadEnv) (s : ProviderState) :
    (performUpload file ud env s).2.1 =
      (reconcile ud env.statusEnv { s with controllerAborted := some false }).2.2 ++
        (afterLoop ud.uploadId env.completeEnv (puLoop file ud env s)).2.1 := rfl

theorem performUpload_state (file : List Nat) (ud : UploadSession)
    (env : UploadEnv) (s : ProviderState) :
    (performUpload file ud env s).1 =
      (afterLoop ud.uploadId env.completeEnv (puLoop file ud env s)).1 := rfl

theorem performUpload_sentIndices (file : List Nat) (ud : UploadSession)
    (env : UploadEnv) (s : ProviderState) :
    sentIndices (performUpload file ud env s).2.1 =
      sentIndices (puLoop file ud env s).2.1 := by
  obtain ⟨extra, heq, hs, _⟩ := afterLoop_trace ud.uploadId env.completeEnv
    (puLoop file ud env s).1 (puLoop file ud env s).2.1 (puLoop file ud env s).2.2
  rw [performUpload_trace, sentIndices_append, (reconcile_trace ud env.statusEnv _).1]
  have : (afterLoop ud.uploadId env.completeEnv (puLoop file ud env s)).2.1 =
      (puLoop file ud env s).2.1 ++ extra := heq
  rw [this, sentIndices_append, hs]
  simp

theorem performUpload_chunkEvs (file : List Nat) (ud : UploadSession)
    (env : UploadEnv) (s : ProviderState) :
    chunkEvs (performUpload file ud env s).2.1 =
      chunkEvs (puLoop file ud env s).2.1 := by
  obtain ⟨extra, heq, _, hc⟩ := afterLoop_trace ud.uploadId env.completeEnv
    (puLoop file ud env s).1 (puLoop file ud env s).2.1 (puLoop file ud env s).2.2
  rw [performUpload_trace, chunkEvs_append, (reconcile_trace ud env.statusEnv _).2]
  have : (afterLoop ud.uploadId env.completeEnv (puLoop file ud env s)).2.1 =
      (puLoop file ud env s).2.1 ++ extra := heq
  rw [this, chunkEvs_append, hc]
  simp

theorem puStart_pos_ok (ud : UploadSession) (tr pr : Nat) (s : ProviderState)
    (h : 0 < ud.uploadedChunks) :
    puStart ud (StatusEnv.ok tr pr) s = tr := by
  simp [puStart, reconcile_pos_ok ud tr pr _ h]

/-! Concrete fixtures used by witnesses and counterexamples. -/

def samplePost : PostData :=
  { type := "video", content := none, mentions := none, tags := none }

def sampleSession : UploadSession :=
  { uploadId := "u1", fileName := "clip.mp4", fileSize := 3,
    fileType := "video/mp4", totalChunks := 1, uploadedChunks := 0,
    progress := 0, postData := samplePost,
    status := UploadStatus.uploading, error := none }

def sampleState : ProviderState :=
  { currentUpload := some sampleSession, uploadFile := some [1, 2, 3],
    controllerAborted := none, storage := some sampleSession }

/-- A session that believes one of its two chunks already landed. -/
def resumeSession : UploadSession :=
  { sampleSession with totalChunks := 2, uploadedChunks := 1, progress := 50 }

def resumeState : ProviderState :=
  { currentUpload := some resumeSession, uploadFile := some [1, 2, 3],
    controllerAborted := none, storage := some resumeSession }

/-- Environment of the lost-acknowledgment scenario: the server confirms
only 0 chunks although the client believes 1 landed. -/
def lostAckEnv : UploadEnv :=
  { statusEnv := StatusEnv.ok 0 0,
    chunkEnv := fun i => ChunkEnv.ok (i + 1) ((i + 1) * 50),
    completeEnv := CompleteEnv.ok }

/-- Shared helper: the reconciliation behavior of performUpload on a
resume with an ok status reply. -/
theorem performUpload_resume_reconciles (file : List Nat) (ud : UploadSession)
    (env : UploadEnv) (s : ProviderState) (tr pr : Nat)
    (hpos : 0 < ud.uploadedChunks) (hst : env.statusEnv = StatusEnv.ok tr pr) :
    (performUpload file ud env s).2.1.head? = some (Event.statusReq ud.uploadId) ∧
    (∃ m, m ≤ ud.totalChunks - tr ∧
      sentIndices (performUpload file ud env s).2.1 = List.range' tr m) ∧
    (tr < ud.totalChunks → env.chunkEnv tr ≠ ChunkEnv.pauseBeforeSend →
      Event.chunkSent ud.uploadId tr
        (fileSlice file (tr * CHUNK_SIZE) (min ((tr + 1) * CHUNK_SIZE) file.length)) ∈
        (performUpload file ud env s).2.1) := by
  have hstart : puStart ud env.statusEnv s = tr := by
    rw [hst]; exact puStart_pos_ok ud tr pr s hpos
  refine ⟨?_, ?_, ?_⟩
  · rw [performUpload_trace, hst, reconcile_pos_ok ud tr pr _ hpos]
    simp
  · have hsentP := performUpload_sentIndices file ud env s
    obtain ⟨m, hm, hsent⟩ := uploadLoop_sent_range file ud.uploadId env.chunkEnv
      (ud.totalChunks - puStart ud env.statusEnv s) (puStart ud env.statusEnv s)
      (puState1 ud env.statusEnv s)
    refine ⟨m, ?_, ?_⟩
    · rw [hstart] at hm; exact hm
    · rw [hsentP]
      show sentIndices (uploadLoop file ud.uploadId env.chunkEnv
        (List.range' (puStart ud env.statusEnv s)
          (ud.totalChunks - puStart ud env.statusEnv s))
        (puState1 ud env.statusEnv s)).2.1 = List.range' tr m
      rw [hsent, hstart]
  · intro hlt hne
    have hmem := uploadLoop_first_send file ud.uploadId env.chunkEnv
      (ud.totalChunks - puStart ud env.statusEnv s) (puStart ud env.statusEnv s)
      (puState1 ud env.statusEnv s) (by rw [hstart]; omega)
      (by rw [hstart]; exact hne)
    rw [performUpload_trace, List.mem_append]
    right
    obtain ⟨extra, heq, _, _⟩ := afterLoop_trace ud.uploadId env.completeEnv
      (puLoop file ud env s).1 (puLoop file ud env s).2.1 (puLoop file ud env s).2.2
    have heq2 : (afterLoop ud.uploadId env.completeEnv (puLoop file ud env s)).2.1 =
        (puLoop file ud env s).2.1 ++ extra := heq
    rw [heq2, List.mem_append]
    left
    show Event.chunkSent ud.uploadId tr
        (fileSlice file (tr * CHUNK_SIZE) (min ((tr + 1) * CHUNK_SIZE) file.length)) ∈
      (uploadLoop file ud.uploadId env.chunkEnv
        (List.range' (puStart ud env.statusEnv s)
          (ud.totalChunks - puStart ud env.statusEnv s))
        (puState1 ud env.statusEnv s)).2.1
    rw [hstart] at hmem ⊢
    exact hmem

/-- Claim C1: on transfer-loop entry with uploadedChunks > 0, the
orchestrator first issues the status request and adopts the server
totalReceived as the resume point: the very first event of the run is
the status request, the transmitted chunk indices are a gap-free
ascending range starting exactly at the server count tr, and when tr is
still below totalChunks (the lost-acknowledgment case tr = k - 1) chunk
tr itself is re-sent before anything else, so no gap is left. -/
theorem C1_resume_status_reconciliation (file : List Nat) (ud : UploadSession)
    (env : UploadEnv) (s : ProviderState) (tr pr : Nat)
    (hpos : 0 < ud.uploadedChunks) (hst : env.statusEnv = StatusEnv.ok tr pr) :
    (performUpload file ud env s).2.1.head? = some (Event.statusReq ud.uploadId) ∧
    (∃ m, m ≤ ud.totalChunks - tr ∧
      sentIndices (performUpload file ud env s).2.1 = List.range' tr m) ∧
    (tr < ud.totalChunks → env.chunkEnv tr ≠ ChunkEnv.pauseBeforeSend →
      Event.chunkSent ud.uploadId tr
        (fileSlice file (tr * CHUNK_SIZE) (min ((tr + 1) * CHUNK_SIZE) file.length)) ∈
        (performUpload file ud env s).2.1) :=
  performUpload_resume_reconciles file ud env s tr pr hpos hst

/-- Witness for C1: the client believes chunk 0 landed (uploadedChunks
1) but the server reports 0, and chunk 0 is re-sent. -/
theorem C1_witness :
    Event.chunkSent "u1" 0
        (fileSlice [1, 2, 3] (0 * CHUNK_SIZE) (min ((0 + 1) * CHUNK_SIZE) 3)) ∈
      (performUpload [1, 2, 3] resumeSession lostAckEnv resumeState).2.1 := by
  have h := C1_resume_status_reconciliation [1, 2, 3] resumeSession lostAckEnv
    resumeState 0 0 (by decide) rfl
  exact h.2.2 (by decide) (by decide)

/-- Environment in which pauseUpload fires while chunk 0 is in flight. -/
def pauseMidChunkEnv : UploadEnv :=
  { statusEnv := StatusEnv.notOk,
    chunkEnv := fun _ => ChunkEnv.pauseDuringReq,
    completeEnv := CompleteEnv.ok }

/-- Claim C2, evaluated at the failing input: pauseUpload aborts the
in-flight chunk and stores status paused, but the catch handler of the
rejected request then runs (single-threaded event loop: after
pauseUpload finished) and stores status cancelled, so the session does
not remain paused as the claim requires. -/
theorem C2_pause_mid_chunk_ends_cancelled :
    Event.stored (some { sampleSession with status := UploadStatus.paused }) ∈
        (performUpload [1, 2, 3] sampleSession pauseMidChunkEnv sampleState).2.1 ∧
      (performUpload [1, 2, 3] sampleSession pauseMidChunkEnv sampleState).1.currentUpload.map
          (fun u => u.status) = some UploadStatus.cancelled ∧
      (performUpload [1, 2, 3] sampleSession pauseMidChunkEnv sampleState).1.currentUpload.map
          (fun u => u.status) ≠ some UploadStatus.paused := by
  decide

/-- The provider state right after a page reload while paused: the
session record was restored from durable storage but the in-memory file
reference was not (only startPostUpload ever sets it). -/
def pausedSession : UploadSession :=
  { sampleSession with status := UploadStatus.paused }

def reloadedState : ProviderState :=
  { currentUpload := some pausedSession, uploadFile := none,
    controllerAborted := none, storage := some pausedSession }

def allOkEnv : UploadEnv :=
  { statusEnv := StatusEnv.notOk,
    chunkEnv := fun i => ChunkEnv.ok (i + 1) 100,
    completeEnv := CompleteEnv.ok }

/-- Counterexample to claim C3: a paused session restored after a page
reload has no in-memory file, and resumeUpload then changes nothing and
does not re-enter the transfer loop, although the status is paused. -/
theorem C3_counterexample :
    reloadedState.currentUpload.map (fun u => u.status) =
        some UploadStatus.paused ∧
      resumeUpload allOkEnv reloadedState = (reloadedState, [], false) := by
  decide

/-- Claim C3 as amended: resumeUpload changes nothing unless the status
is paused AND a file reference is still held in memory (so it has no
effect after a page reload, which restores only the session record);
when both hold it re-enters the transfer loop, resuming from the
server-reconciled resume point. -/
theorem C3_resume_guard (env : UploadEnv) (s : ProviderState) :
    (∀ u, s.currentUpload = some u → u.status ≠ UploadStatus.paused →
      resumeUpload env s = (s, [], false)) ∧
    (s.currentUpload = none → resumeUpload env s = (s, [], false)) ∧
    (s.uploadFile = none → resumeUpload env s = (s, [], false)) ∧
    (∀ u f tr pr, s.currentUpload = some u → s.uploadFile = some f →
      u.status = UploadStatus.paused → env.statusEnv = StatusEnv.ok tr pr →
      0 < u.uploadedChunks →
      (resumeUpload env s).2.2 = true ∧
        ∃ m, sentIndices (resumeUpload env s).2.1 = List.range' tr m) := by
  refine ⟨?_, ?_, ?_, ?_⟩
  · intro u hu hne
    cases hcu : s.currentUpload with
    | none => rw [hcu] at hu; cases hu
    | some v =>
      rw [hcu] at hu
      cases hu
      cases hf : s.uploadFile with
      | none => simp [resumeUpload, hcu, hf]
      | some f => simp [resumeUpload, hcu, hf, hne]
  · intro h
    simp [resumeUpload, h]
  · intro h
    cases hcu : s.currentUpload with
    | none => simp [resumeUpload, hcu, h]
    | some v => simp [resumeUpload, hcu, h]
  · intro u f tr pr hcu hf hp hst hpos
    have hres : resumeUpload env s =
        ((performUpload f u env
            (updateUpload (fun v => { v with status := UploadStatus.uploading }) s).1).1,
          (updateUpload (fun v => { v with status := UploadStatus.uploading }) s).2 ++
            (performUpload f u env
              (updateUpload (fun v => { v with status := UploadStatus.uploading }) s).1).2.1,
          true) := by
      simp [resumeUpload, hcu, hf, hp]
    constructor
    · rw [hres]
    · obtain ⟨hd, ⟨m, hm, hsent⟩, hc⟩ := performUpload_resume_reconciles f u env
        (updateUpload (fun v => { v with status := UploadStatus.uploading }) s).1
        tr pr hpos hst
      refine ⟨m, ?_⟩
      rw [hres]
      simp only [sentIndices_append]
      rw [hsent]
      simp [sentIndices, updateUpload, setCurrent]

theorem mem_sentIndices_of_mem {uid' : String} {j : Nat} {b : List Nat}
    {evs : List Event} (h : Event.chunkSent uid' j b ∈ evs) :
    j ∈ sentIndices evs :=
  List.mem_filterMap.2 ⟨Event.chunkSent uid' j b, h, rfl⟩

theorem not_chunkSent_of_sentIndices_nil {evs : List Event}
    (h : sentIndices evs = []) (uid' : String) (j : Nat) (b : List Nat) :
    Event.chunkSent uid' j b ∉ evs := by
  intro hm
  have := mem_sentIndices_of_mem hm
  rw [h] at this
  cases this

/-- Claim C4: in every run, the chunk-level events of the trace are a
sequence of consecutive send/acknowledge groups with strictly ascending
indices stepping by one: each transmitted chunk is settled (acknowledged,
or the run ends) before the next index is sent, so transmissions are
sequential with never more than one outstanding. -/
theorem C4_sequential_ascending_chunks (file : List Nat) (ud : UploadSession)
    (env : UploadEnv) (s : ProviderState) :
    ∃ start m, m ≤ ud.totalChunks - start ∧
      chunkEvs (performUpload file ud env s).2.1 =
        okPairSeq ud.uploadId file env.chunkEnv start m := by
  obtain ⟨m, hm, hck⟩ := uploadLoop_chunkEvs file ud.uploadId env.chunkEnv
    (ud.totalChunks - puStart ud env.statusEnv s) (puStart ud env.statusEnv s)
    (puState1 ud env.statusEnv s)
  refine ⟨puStart ud env.statusEnv s, m, hm, ?_⟩
  rw [performUpload_chunkEvs]
  exact hck

/-- Byte lengths of the transmitted chunks, in trace order. -/
def sentLengths (evs : List Event) : List Nat :=
  evs.filterMap fun e =>
    match e with
    | Event.chunkSent _ _ b => some b.length
    | _ => none

theorem sentLengths_append (a b : List Event) :
    sentLengths (a ++ b) = sentLengths a ++ sentLengths b := by
  simp [sentLengths]

theorem fileSlice_length (f : List Nat) (a b : Nat) :
    (fileSlice f a b).length = min (b - a) (f.length - a) := by
  simp [fileSlice]

/-- A 17 MiB file, all bytes zero. -/
def file17 : List Nat := List.replicate (17 * 1024 * 1024) 0

def session17 : UploadSession :=
  { sampleSession with fileSize := 17 * 1024 * 1024, totalChunks := 3 }

def state17 : ProviderState :=
  { currentUpload := some session17, uploadFile := some file17,
    controllerAborted := none, storage := some session17 }

theorem sentLengths_nil_of_no_chunkSent {evs : List Event}
    (h : ∀ uid' j b, Event.chunkSent uid' j b ∉ evs) :
    sentLengths evs = [] := by
  induction evs with
  | nil => rfl
  | cons e t ih =>
    have ht : ∀ uid' j b, Event.chunkSent uid' j b ∉ t :=
      fun uid' j b hm => h uid' j b (List.mem_cons_of_mem _ hm)
    cases e with
    | chunkSent uid' j b => exact absurd (List.mem_cons_self _ _) (h uid' j b)
    | initReq => simpa [sentLengths, List.filterMap_cons] using ih ht
    | statusReq a => simpa [sentLengths, List.filterMap_cons] using ih ht
    | chunkAcked i a b => simpa [sentLengths, List.filterMap_cons] using ih ht
    | completeReq a => simpa [sentLengths, List.filterMap_cons] using ih ht
    | deleteReq a => simpa [sentLengths, List.filterMap_cons] using ih ht
    | abortSignal => simpa [sentLengths, List.filterMap_cons] using ih ht
    | stored u => simpa [sentLengths, List.filterMap_cons] using ih ht
    | logDeleteFailure => simpa [sentLengths, List.filterMap_cons] using ih ht

theorem performUpload_sentLengths (file : List Nat) (ud : UploadSession)
    (env : UploadEnv) (s : ProviderState) :
    sentLengths (performUpload file ud env s).2.1 =
      sentLengths (puLoop file ud env s).2.1 := by
  obtain ⟨extra, heq, hs, _⟩ := afterLoop_trace ud.uploadId env.completeEnv
    (puLoop file ud env s).1 (puLoop file ud env s).2.1 (puLoop file ud env s).2.2
  rw [performUpload_trace, sentLengths_append]
  rw [sentLengths_nil_of_no_chunkSent
    (not_chunkSent_of_sentIndices_nil (reconcile_trace ud env.statusEnv _).1)]
  have heq2 : (afterLoop ud.uploadId env.completeEnv (puLoop file ud env s)).2.1 =
      (puLoop file ud env s).2.1 ++ extra := heq
  rw [heq2, sentLengths_append,
    sentLengths_nil_of_no_chunkSent (not_chunkSent_of_sentIndices_nil hs)]
  simp

/-- Claim C5: the chunk size is fixed at 8 MiB; every transmitted chunk
is exactly the file bytes in [i * chunkSize, min((i+1) * chunkSize,
fileSize)); and a 17 MiB file with totalChunks = 3 is sent as three
chunks of exactly 8 MiB, 8 MiB and 1 MiB at indices 0, 1, 2. -/
theorem C5_chunk_slicing :
    CHUNK_SIZE = 8 * 1024 * 1024 ∧
    (∀ (file : List Nat) (ud : UploadSession) (env : UploadEnv)
      (s : ProviderState) (uid' : String) (i : Nat) (b : List Nat),
      Event.chunkSent uid' i b ∈ (performUpload file ud env s).2.1 →
      b = fileSlice file (i * CHUNK_SIZE) (min ((i + 1) * CHUNK_SIZE) file.length)) ∧
    (sentIndices (performUpload file17 session17 allOkEnv state17).2.1 = [0, 1, 2] ∧
      sentLengths (performUpload file17 session17 allOkEnv state17).2.1 =
        [8 * 1024 * 1024, 8 * 1024 * 1024, 1024 * 1024]) := by
  refine ⟨rfl, ?_, ?_, ?_⟩
  · intro file ud env s uid' i b hm
    rw [performUpload_trace, List.mem_append] at hm
    rcases hm with hm | hm
    · exact absurd hm (not_chunkSent_of_sentIndices_nil
        (reconcile_trace ud env.statusEnv _).1 uid' i b)
    · obtain ⟨extra, heq, hs, _⟩ := afterLoop_trace ud.uploadId env.completeEnv
        (puLoop file ud env s).1 (puLoop file ud env s).2.1 (puLoop file ud env s).2.2
      have heq2 : (afterLoop ud.uploadId env.completeEnv (puLoop file ud env s)).2.1 =
          (puLoop file ud env s).2.1 ++ extra := heq
      rw [heq2, List.mem_append] at hm
      rcases hm with hm | hm
      · exact (uploadLoop_sent_bytes file ud.uploadId env.chunkEnv _ _ uid' i b hm).2
      · exact absurd hm (not_chunkSent_of_sentIndices_nil hs uid' i b)
  · rw [performUpload_sentIndices]
    show sentIndices (uploadLoop file17 "u1" allOkEnv.chunkEnv
      (List.range' 0 3) { state17 with controllerAborted := some false }).2.1 = [0, 1, 2]
    have hr : List.range' 0 3 = [0, 1, 2] := rfl
    rw [hr]
    simp [uploadLoop, allOkEnv, updateUpload, setCurrent, sentIndices]
  · rw [performUpload_sentLengths]
    show sentLengths (uploadLoop file17 "u1" allOkEnv.chunkEnv
      (List.range' 0 3) { state17 with controllerAborted := some false }).2.1 =
      [8 * 1024 * 1024, 8 * 1024 * 1024, 1024 * 1024]
    have hl : file17.length = 17 * 1024 * 1024 := by
      rw [show file17 = List.replicate (17 * 1024 * 1024) 0 from rfl,
        List.length_replicate]
    have hr : List.range' 0 3 = [0, 1, 2] := rfl
    rw [hr]
    simp only [uploadLoop, allOkEnv, updateUpload, setCurrent, sentLengths,
      List.filterMap_cons, List.filterMap_append, List.filterMap_nil]
    simp only [fileSlice_length, hl]
    norm_num [CHUNK_SIZE, Nat.min_def]

/-- Witness for C5: in a concrete run the transmitted bytes of chunk 0
are exactly the slice of the file at the chunk boundaries. -/
theorem C5_witness :
    ([1, 2, 3] : List Nat) = fileSlice [1, 2, 3] (0 * CHUNK_SIZE)
      (min ((0 + 1) * CHUNK_SIZE) ([1, 2, 3] : List Nat).length) :=
  C5_chunk_slicing.2.1 [1, 2, 3] sampleSession allOkEnv sampleState "u1" 0
    [1, 2, 3] (by decide)

def pausedResumeSession : UploadSession :=
  { resumeSession with status := UploadStatus.paused }

def pausedWithFileState : ProviderState :=
  { currentUpload := some pausedResumeSession, uploadFile := some [1, 2, 3],
    controllerAborted := none, storage := some pausedResumeSession }

/-- Witness for the amended C3: with the paused session and its file
still in memory, resumeUpload re-enters the loop from the server
resume point. -/
theorem C3_witness :
    (resumeUpload lostAckEnv pausedWithFileState).2.2 = true ∧
      ∃ m, sentIndices (resumeUpload lostAckEnv pausedWithFileState).2.1 =
        List.range' 0 m :=
  (C3_resume_guard lostAckEnv pausedWithFileState).2.2.2 pausedResumeSession
    [1, 2, 3] 0 0 rfl rfl rfl rfl (by decide)

theorem afterLoop_threw_flag (uid : String) (cenv : CompleteEnv)
    (s2 : ProviderState) (evs1 : List Event) (msg : String) :
    (afterLoop uid cenv (s2, evs1, LoopExit.threw msg)).2.2 = false := rfl

theorem performUpload_flag (file : List Nat) (ud : UploadSession)
    (env : UploadEnv) (s : ProviderState) :
    (performUpload file ud env s).2.2 =
      (afterLoop ud.uploadId env.completeEnv (puLoop file ud env s)).2.2 := rfl

theorem puState1_isSome (ud : UploadSession) (senv : StatusEnv)
    (s : ProviderState) :
    (puState1 ud senv s).currentUpload.isSome = s.currentUpload.isSome := by
  by_cases h : 0 < ud.uploadedChunks
  · cases senv <;> simp [puState1, reconcile, h, updateUpload, setCurrent]
  · cases senv <;> simp [puState1, reconcile, h]

theorem puStart_zero (ud : UploadSession) (senv : StatusEnv)
    (s : ProviderState) (h : ud.uploadedChunks = 0) :
    puStart ud senv s = 0 := by
  simp [puStart, reconcile_zero ud senv _ h]

/-- Claim C7: a chunk transport failure not caused by cancellation moves
the session to status error with the failure reason, stops the loop
right after the failed transmission (no later chunk is sent, the failed
chunk is not retried) and schedules no completion; retryUpload changes
nothing unless the status is error with a file in memory, and when valid
it clears the error, stores status uploading, and re-enters the loop
from the server-confirmed resume point rather than from zero. -/
theorem C7_error_and_retry :
    (∀ (file : List Nat) (ud : UploadSession) (env : UploadEnv)
      (s : ProviderState) (v : UploadSession) (i : Nat) (msg : String),
      ud.uploadedChunks = 0 → s.currentUpload = some v →
      i < ud.totalChunks →
      (∀ j, j < i → ∃ a b, env.chunkEnv j = ChunkEnv.ok a b) →
      env.chunkEnv i = ChunkEnv.failErr msg →
      (∃ w, (performUpload file ud env s).1.currentUpload = some w ∧
        w.status = UploadStatus.error ∧
        w.error = some ("Chunk upload failed: " ++ msg)) ∧
      sentIndices (performUpload file ud env s).2.1 = List.range' 0 (i + 1) ∧
      (performUpload file ud env s).2.2 = false) ∧
    (∀ (env : UploadEnv) (s : ProviderState) (u : UploadSession),
      s.currentUpload = some u → u.status ≠ UploadStatus.error →
      retryUpload env s = (s, [], false)) ∧
    (∀ (env : UploadEnv) (s : ProviderState), s.currentUpload = none →
      retryUpload env s = (s, [], false)) ∧
    (∀ (env : UploadEnv) (s : ProviderState), s.uploadFile = none →
      retryUpload env s = (s, [], false)) ∧
    (∀ (env : UploadEnv) (s : ProviderState) (u : UploadSession)
      (f : List Nat) (tr pr : Nat),
      s.currentUpload = some u → s.uploadFile = some f →
      u.status = UploadStatus.error → env.statusEnv = StatusEnv.ok tr pr →
      0 < u.uploadedChunks →
      (retryUpload env s).2.2 = true ∧
      Event.stored (some { u with status := UploadStatus.uploading, error := none }) ∈
        (retryUpload env s).2.1 ∧
      ∃ m, sentIndices (retryUpload env s).2.1 = List.range' tr m) := by
  refine ⟨?_, ?_, ?_, ?_, ?_⟩
  · intro file ud env s v i msg hud hcv hi hok hfail
    have hstart := puStart_zero ud env.statusEnv s hud
    have hfa := uploadLoop_fail_at file ud.uploadId env.chunkEnv
      (ud.totalChunks - puStart ud env.statusEnv s) (puStart ud env.statusEnv s)
      (puState1 ud env.statusEnv s) i msg (by rw [hstart]; omega)
      (by rw [hstart]; omega) (fun j hj1 hj2 => hok j hj2) hfail
    have hexit : (puLoop file ud env s).2.2 =
        LoopExit.threw ("Chunk upload failed: " ++ msg) := hfa.1
    have hsent : sentIndices (puLoop file ud env s).2.1 =
        List.range' (puStart ud env.statusEnv s)
          (i + 1 - puStart ud env.statusEnv s) := hfa.2
    have heta : puLoop file ud env s =
        ((puLoop file ud env s).1, (puLoop file ud env s).2.1,
          LoopExit.threw ("Chunk upload failed: " ++ msg)) := by
      rw [← hexit]
    have hsome : (puLoop file ud env s).1.currentUpload.isSome = true := by
      have h1 := uploadLoop_preserves_isSome file ud.uploadId env.chunkEnv
        (List.range' (puStart ud env.statusEnv s)
          (ud.totalChunks - puStart ud env.statusEnv s))
        (puState1 ud env.statusEnv s)
      rw [puState1_isSome, hcv] at h1
      exact h1
    obtain ⟨w', hw'⟩ := Option.isSome_iff_exists.1 hsome
    refine ⟨⟨{ w' with status := UploadStatus.error, error := some ("Chunk upload failed: " ++ msg) }, ?_, rfl, rfl⟩, ?_, ?_⟩
    · rw [performUpload_state, heta, afterLoop_threw_state, hw']
      rfl
    · rw [performUpload_sentIndices, hsent, hstart]
      simp
    · rw [performUpload_flag, heta, afterLoop_threw_flag]
  · intro env s u hu hne
    cases hcu : s.currentUpload with
    | none => rw [hcu] at hu; cases hu
    | some v =>
      rw [hcu] at hu
      cases hu
      cases hf : s.uploadFile with
      | none => simp [retryUpload, hcu, hf]
      | some f => simp [retryUpload, hcu, hf, hne]
  · intro env s h
    simp [retryUpload, h]
  · intro env s h
    cases hcu : s.currentUpload with
    | none => simp [retryUpload, hcu, h]
    | some v => simp [retryUpload, hcu, h]
  · intro env s u f tr pr hcu hf herr hst hpos
    have hres : retryUpload env s =
        ((performUpload f u env
            (updateUpload (fun v => { v with status := UploadStatus.uploading, error := none }) s).1).1,
          (updateUpload (fun v => { v with status := UploadStatus.uploading, error := none }) s).2 ++
            (performUpload f u env
              (updateUpload (fun v => { v with status := UploadStatus.uploading, error := none }) s).1).2.1,
          true) := by
      simp [retryUpload, hcu, hf, herr]
    refine ⟨by rw [hres], ?_, ?_⟩
    · rw [hres]
      simp only [updateUpload_snd, hcu, Option.map_some, List.cons_append,
        List.mem_cons]
      left
      rfl
    · obtain ⟨hd, ⟨m, hm, hsent⟩, hc⟩ := performUpload_resume_reconciles f u env
        (updateUpload (fun v => { v with status := UploadStatus.uploading, error := none }) s).1
        tr pr hpos hst
      refine ⟨m, ?_⟩
      rw [hres]
      simp only [sentIndices_append]
      rw [hsent]
      simp [sentIndices, updateUpload, setCurrent]

def failEnv : UploadEnv :=
  { statusEnv := StatusEnv.notOk,
    chunkEnv := fun _ => ChunkEnv.failErr "net down",
    completeEnv := CompleteEnv.ok }

/-- Witness for C7: a concrete failing chunk run ends in status error
with the reason recorded and nothing sent after the failed chunk. -/
theorem C7_witness :
    (∃ w, (performUpload [1, 2, 3] sampleSession failEnv sampleState).1.currentUpload =
        some w ∧ w.status = UploadStatus.error ∧
        w.error = some ("Chunk upload failed: " ++ "net down")) ∧
      sentIndices (performUpload [1, 2, 3] sampleSession failEnv sampleState).2.1 =
        List.range' 0 (0 + 1) ∧
      (performUpload [1, 2, 3] sampleSession failEnv sampleState).2.2 = false :=
  C7_error_and_retry.1 [1, 2, 3] sampleSession failEnv sampleState sampleSession
    0 "net down" rfl rfl (by decide) (fun j hj => absurd hj (by omega)) rfl

/-- Claim C8: cancelUpload with a live session aborts any in-flight
transport, issues exactly one best-effort DELETE for the session id, and
regardless of the DELETE outcome (its failure is only logged, never
surfaced: the resulting state does not depend on it) clears the session,
the file reference, and the durable record. -/
theorem C8_cancel_best_effort (s : ProviderState) (u : UploadSession)
    (delOk : Bool) (h : s.currentUpload = some u) :
    (cancelUpload delOk s).1.currentUpload = none ∧
    (cancelUpload delOk s).1.uploadFile = none ∧
    (cancelUpload delOk s).1.storage = none ∧
    (cancelUpload true s).1 = (cancelUpload false s).1 ∧
    Event.deleteReq u.uploadId ∈ (cancelUpload delOk s).2 ∧
    ((cancelUpload delOk s).2.filter (fun e => match e with
      | Event.deleteReq _ => true
      | _ => false)).length = 1 ∧
    (s.controllerAborted ≠ none → Event.abortSignal ∈ (cancelUpload delOk s).2) := by
  cases hca : s.controllerAborted with
  | none =>
    cases delOk <;>
      simp [cancelUpload, h, hca, clearUpload, setCurrent]
  | some b =>
    cases delOk <;>
      simp [cancelUpload, h, hca, clearUpload, setCurrent]

/-- Witness for C8: cancelling the sample session with a failing DELETE
still clears everything and issued the DELETE. -/
theorem C8_witness :
    (cancelUpload false sampleState).1.currentUpload = none ∧
      Event.deleteReq "u1" ∈ (cancelUpload false sampleState).2 :=
  ⟨(C8_cancel_best_effort sampleState sampleSession false rfl).1,
    (C8_cancel_best_effort sampleState sampleSession false rfl).2.2.2.2.1⟩

theorem puState1_uploadFile (ud : UploadSession) (senv : StatusEnv)
    (s : ProviderState) :
    (puState1 ud senv s).uploadFile = s.uploadFile := by
  by_cases h : 0 < ud.uploadedChunks
  · cases senv <;> simp [puState1, reconcile, h, updateUpload, setCurrent]
  · cases senv <;> simp [puState1, reconcile, h]

theorem puState1_none (ud : UploadSession) (senv : StatusEnv)
    (s : ProviderState) (h : s.currentUpload = none) :
    (puState1 ud senv s).currentUpload = none := by
  have h1 := puState1_isSome ud senv s
  rw [h] at h1
  simpa [Option.isSome_iff_exists] using
    (Option.not_isSome_iff_eq_none.1 (by simp [h1]))

theorem performUpload_preserves_isSome (file : List Nat) (ud : UploadSession)
    (env : UploadEnv) (s : ProviderState) :
    (performUpload file ud env s).1.currentUpload.isSome =
      s.currentUpload.isSome := by
  rw [performUpload_state]
  have h1 := afterLoop_preserves_isSome ud.uploadId env.completeEnv
    (puLoop file ud env s).1 (puLoop file ud env s).2.1 (puLoop file ud env s).2.2
  have h2 : (afterLoop ud.uploadId env.completeEnv (puLoop file ud env s)).1.currentUpload.isSome =
      (puLoop file ud env s).1.currentUpload.isSome := h1
  rw [h2]
  have h3 := uploadLoop_preserves_isSome file ud.uploadId env.chunkEnv
    (List.range' (puStart ud env.statusEnv s)
      (ud.totalChunks - puStart ud env.statusEnv s)) (puState1 ud env.statusEnv s)
  have h4 : (puLoop file ud env s).1.currentUpload.isSome =
      (puState1 ud env.statusEnv s).currentUpload.isSome := h3
  rw [h4, puState1_isSome]

theorem performUpload_preserves_uploadFile (file : List Nat)
    (ud : UploadSession) (env : UploadEnv) (s : ProviderState) :
    (performUpload file ud env s).1.uploadFile = s.uploadFile := by
  rw [performUpload_state]
  have h1 := afterLoop_preserves_uploadFile ud.uploadId env.completeEnv
    (puLoop file ud env s).1 (puLoop file ud env s).2.1 (puLoop file ud env s).2.2
  have h2 : (afterLoop ud.uploadId env.completeEnv (puLoop file ud env s)).1.uploadFile =
      (puLoop file ud env s).1.uploadFile := h1
  rw [h2]
  have h3 := uploadLoop_preserves_uploadFile file ud.uploadId env.chunkEnv
    (List.range' (puStart ud env.statusEnv s)
      (ud.totalChunks - puStart ud env.statusEnv s)) (puState1 ud env.statusEnv s)
  have h4 : (puLoop file ud env s).1.uploadFile =
      (puState1 ud env.statusEnv s).uploadFile := h3
  rw [h4, puState1_uploadFile]

theorem performUpload_preserves_none (file : List Nat) (ud : UploadSession)
    (env : UploadEnv) (s : ProviderState) (h : s.currentUpload = none) :
    (performUpload file ud env s).1.currentUpload = none := by
  have h1 := performUpload_preserves_isSome file ud env s
  rw [h] at h1
  simp only [Option.isSome_none] at h1
  exact Option.not_isSome_iff_eq_none.1 (by simp [h1])

theorem reconcile_quiet (ud : UploadSession) (senv : StatusEnv)
    (s0 : ProviderState) :
    Event.abortSignal ∉ (reconcile ud senv s0).2.2 ∧
      ∀ oldId, Event.deleteReq oldId ∉ (reconcile ud senv s0).2.2 := by
  by_cases h : 0 < ud.uploadedChunks
  · cases senv <;> simp [reconcile, h, updateUpload, setCurrent]
  · cases senv <;> simp [reconcile, h]

theorem afterLoop_trace_quiet (uid : String) (cenv : CompleteEnv)
    (s2 : ProviderState) (evs1 : List Event) (ex : LoopExit) :
    ∃ extra, (afterLoop uid cenv (s2, evs1, ex)).2.1 = evs1 ++ extra ∧
      Event.abortSignal ∉ extra ∧ ∀ oldId, Event.deleteReq oldId ∉ extra := by
  cases ex with
  | finished =>
    cases cenv with
    | ok =>
      refine ⟨Event.completeReq uid ::
        (updateUpload (fun u => { u with status := UploadStatus.completed, progress := 100 }) s2).2,
        by simp [afterLoop], ?_, ?_⟩
      · simp [updateUpload, setCurrent]
      · intro oldId; simp [updateUpload, setCurrent]
    | fail msg =>
      refine ⟨Event.completeReq uid ::
        (updateUpload (fun u => { u with status := UploadStatus.error, error := some ("Upload completion failed: " ++ msg) }) s2).2,
        by simp [afterLoop], ?_, ?_⟩
      · simp [updateUpload, setCurrent]
      · intro oldId; simp [updateUpload, setCurrent]
  | returnedEarly => exact ⟨[], by simp [afterLoop], by simp, by simp⟩
  | threw msg =>
    refine ⟨(updateUpload (fun u => { u with status := UploadStatus.error, error := some msg }) s2).2,
      by simp [afterLoop], ?_, ?_⟩
    · simp [updateUpload, setCurrent]
    · intro oldId; simp [updateUpload, setCurrent]

theorem uploadLoop_quiet (file : List Nat) (uid : String)
    (env : Nat → ChunkEnv)
    (henv : ∀ i, env i ≠ ChunkEnv.pauseDuringReq ∧ env i ≠ ChunkEnv.pauseBeforeSend) :
    ∀ (idxs : List Nat) (s : ProviderState),
      Event.abortSignal ∉ (uploadLoop file uid env idxs s).2.1 ∧
        ∀ oldId, Event.deleteReq oldId ∉ (uploadLoop file uid env idxs s).2.1 := by
  intro idxs
  induction idxs with
  | nil => intro s; simp [uploadLoop]
  | cons i rest ih =>
    intro s
    cases hc : env i with
    | ok tr pr =>
      have h2 := ih ((updateUpload (fun u => { u with uploadedChunks := tr, progress := pr, status := UploadStatus.uploading }) s).1)
      constructor
      · simp only [uploadLoop, hc, List.mem_cons, List.mem_append]
        push_neg
        refine ⟨by simp, by simp, ?_, h2.1⟩
        simp [updateUpload, setCurrent]
      · intro oldId
        simp only [uploadLoop, hc, List.mem_cons, List.mem_append]
        push_neg
        refine ⟨by simp, by simp, ?_, h2.2 oldId⟩
        simp [updateUpload, setCurrent]
    | failErr msg => simp [uploadLoop, hc]
    | pauseDuringReq => exact absurd hc (henv i).1
    | pauseBeforeSend => exact absurd hc (henv i).2

theorem performUpload_quiet (file : List Nat) (ud : UploadSession)
    (env : UploadEnv) (s : ProviderState)
    (henv : ∀ i, env.chunkEnv i ≠ ChunkEnv.pauseDuringReq ∧
      env.chunkEnv i ≠ ChunkEnv.pauseBeforeSend) :
    Event.abortSignal ∉ (performUpload file ud env s).2.1 ∧
      ∀ oldId, Event.deleteReq oldId ∉ (performUpload file ud env s).2.1 := by
  have hq1 := reconcile_quiet ud env.statusEnv { s with controllerAborted := some false }
  have hq2raw := uploadLoop_quiet file ud.uploadId env.chunkEnv henv
    (List.range' (puStart ud env.statusEnv s)
      (ud.totalChunks - puStart ud env.statusEnv s)) (puState1 ud env.statusEnv s)
  have hq2 : Event.abortSignal ∉ (puLoop file ud env s).2.1 ∧
      ∀ oldId, Event.deleteReq oldId ∉ (puLoop file ud env s).2.1 := hq2raw
  obtain ⟨extra, heq, hqa, hqd⟩ := afterLoop_trace_quiet ud.uploadId env.completeEnv
    (puLoop file ud env s).1 (puLoop file ud env s).2.1 (puLoop file ud env s).2.2
  have heq2 : (afterLoop ud.uploadId env.completeEnv (puLoop file ud env s)).2.1 =
      (puLoop file ud env s).2.1 ++ extra := heq
  constructor
  · rw [performUpload_trace, heq2]
    intro hmem
    rcases List.mem_append.1 hmem with h | h
    · exact hq1.1 h
    · rcases List.mem_append.1 h with h | h
      · exact hq2.1 h
      · exact hqa h
  · intro oldId
    rw [performUpload_trace, heq2]
    intro hmem
    rcases List.mem_append.1 hmem with h | h
    · exact hq1.2 oldId h
    · rcases List.mem_append.1 h with h | h
      · exact hq2.2 oldId h
      · exact hqd oldId h

/-- Claim C9: updateUpload maps an absent session to an absent session,
and every operation other than startPostUpload preserves the absence of
a session (so a late callback of a still-settling transfer loop after a
clear cannot recreate the record); only startPostUpload, on a
successful init, makes the session present. -/
theorem C9_no_session_resurrection :
    (∀ (f : UploadSession → UploadSession) (s : ProviderState),
      s.currentUpload = none → (updateUpload f s).1.currentUpload = none) ∧
    (∀ (file : List Nat) (ud : UploadSession) (env : UploadEnv)
      (s : ProviderState), s.currentUpload = none →
      (performUpload file ud env s).1.currentUpload = none) ∧
    (∀ s : ProviderState, s.currentUpload = none →
      (pauseUpload s).1.currentUpload = none) ∧
    (∀ (env : UploadEnv) (s : ProviderState), s.currentUpload = none →
      (resumeUpload env s).1.currentUpload = none) ∧
    (∀ (env : UploadEnv) (s : ProviderState), s.currentUpload = none →
      (retryUpload env s).1.currentUpload = none) ∧
    (∀ (delOk : Bool) (s : ProviderState), s.currentUpload = none →
      (cancelUpload delOk s).1.currentUpload = none) ∧
    (∀ s : ProviderState, (clearUpload s).1.currentUpload = none) ∧
    (∀ (data : StartData) (uid : String) (tc : Nat) (env : UploadEnv)
      (s : ProviderState),
      (startPostUpload data (InitEnv.ok uid tc) env s).1.currentUpload.isSome = true) := by
  refine ⟨?_, ?_, ?_, ?_, ?_, ?_, ?_, ?_⟩
  · intro f s h; simp [updateUpload, setCurrent, h]
  · intro file ud env s h; exact performUpload_preserves_none file ud env s h
  · intro s h; rw [pauseUpload_currentUpload, h]; rfl
  · intro env s h; simp [resumeUpload, h]
  · intro env s h; simp [retryUpload, h]
  · intro delOk s h; simp [cancelUpload, h]
  · intro s; cases hca : s.controllerAborted <;> simp [clearUpload, setCurrent, hca]
  · intro data uid tc env s
    show (performUpload data.fileBytes (initSession data uid tc) env
      { (setCurrent (some (initSession data uid tc)) s).1 with
          uploadFile := some data.fileBytes }).1.currentUpload.isSome = true
    rw [performUpload_preserves_isSome]
    simp [setCurrent]

def emptyState : ProviderState :=
  { currentUpload := none, uploadFile := none, controllerAborted := none,
    storage := none }

/-- Witness for C9: on a cleared state, a full loop run and a late
status update both leave the session absent. -/
theorem C9_witness :
    (performUpload [1, 2, 3] sampleSession allOkEnv emptyState).1.currentUpload = none ∧
      (updateUpload (fun u => { u with status := UploadStatus.error }) emptyState).1.currentUpload = none :=
  ⟨C9_no_session_resurrection.2.1 [1, 2, 3] sampleSession allOkEnv emptyState rfl,
    C9_no_session_resurrection.1 (fun u => { u with status := UploadStatus.error })
      emptyState rfl⟩

/-- Claim C10: startPostUpload checks no precondition about an existing
upload: from any prior state, a successful init overwrites the stored
session record with the fresh session and the file reference with the
new file, while the whole run signals no abort (the previous transfer
loop is left un-aborted) and issues no DELETE for any upload id (the
prior server session is left in place). -/
theorem C10_start_overwrites_unconditionally (data : StartData) (uid : String)
    (tc : Nat) (env : UploadEnv) (s : ProviderState)
    (henv : ∀ i, env.chunkEnv i ≠ ChunkEnv.pauseDuringReq ∧
      env.chunkEnv i ≠ ChunkEnv.pauseBeforeSend) :
    (∃ rest, (startPostUpload data (InitEnv.ok uid tc) env s).2 =
      Event.initReq :: Event.stored (some (initSession data uid tc)) :: rest) ∧
    (startPostUpload data (InitEnv.ok uid tc) env s).1.uploadFile =
      some data.fileBytes ∧
    Event.abortSignal ∉ (startPostUpload data (InitEnv.ok uid tc) env s).2 ∧
    ∀ oldId, Event.deleteReq oldId ∉ (startPostUpload data (InitEnv.ok uid tc) env s).2 := by
  have htr : (startPostUpload data (InitEnv.ok uid tc) env s).2 =
      Event.initReq :: Event.stored (some (initSession data uid tc)) ::
        (performUpload data.fileBytes (initSession data uid tc) env
          { (setCurrent (some (initSession data uid tc)) s).1 with
              uploadFile := some data.fileBytes }).2.1 := rfl
  have hquiet := performUpload_quiet data.fileBytes (initSession data uid tc) env
    { (setCurrent (some (initSession data uid tc)) s).1 with
        uploadFile := some data.fileBytes } henv
  refine ⟨⟨_, htr⟩, ?_, ?_, ?_⟩
  · show (performUpload data.fileBytes (initSession data uid tc) env
      { (setCurrent (some (initSession data uid tc)) s).1 with
          uploadFile := some data.fileBytes }).1.uploadFile = some data.fileBytes
    rw [performUpload_preserves_uploadFile]
  · rw [htr]
    intro hmem
    rcases List.mem_cons.1 hmem with h | h
    · cases h
    · rcases List.mem_cons.1 h with h | h
      · cases h
      · exact hquiet.1 h
  · intro oldId
    rw [htr]
    intro hmem
    rcases List.mem_cons.1 hmem with h | h
    · cases h
    · rcases List.mem_cons.1 h with h | h
      · cases h
      · exact hquiet.2 oldId h

/-- Witness for C10: starting a new upload while the sample upload is
still active overwrites the record and aborts nothing. -/
theorem C10_witness :
    (∃ rest, (startPostUpload
        { type := "video", content := none, mentions := none, tags := none,
          fileName := "b.mp4", fileType := "video/mp4", fileBytes := [9] }
        (InitEnv.ok "u2" 1) allOkEnv sampleState).2 =
      Event.initReq :: Event.stored (some (initSession
        { type := "video", content := none, mentions := none, tags := none,
          fileName := "b.mp4", fileType := "video/mp4", fileBytes := [9] }
        "u2" 1)) :: rest) ∧
    (startPostUpload
        { type := "video", content := none, mentions := none, tags := none,
          fileName := "b.mp4", fileType := "video/mp4", fileBytes := [9] }
        (InitEnv.ok "u2" 1) allOkEnv sampleState).1.uploadFile = some [9] ∧
    Event.abortSignal ∉ (startPostUpload
        { type := "video", content := none, mentions := none, tags := none,
          fileName := "b.mp4", fileType := "video/mp4", fileBytes := [9] }
        (InitEnv.ok "u2" 1) allOkEnv sampleState).2 ∧
    ∀ oldId, Event.deleteReq oldId ∉ (startPostUpload
        { type := "video", content := none, mentions := none, tags := none,
          fileName := "b.mp4", fileType := "video/mp4", fileBytes := [9] }
        (InitEnv.ok "u2" 1) allOkEnv sampleState).2 :=
  C10_start_overwrites_unconditionally
    { type := "video", content := none, mentions := none, tags := none,
      fileName := "b.mp4", fileType := "video/mp4", fileBytes := [9] }
    "u2" 1 allOkEnv sampleState (by intro i; exact ⟨by simp [allOkEnv], by simp [allOkEnv]⟩)

/-! Facts about the spec-modelled server store. -/

theorem serverRun_totalChunks (idxs : List Nat) :
    ∀ ss : ServerSession, (serverRun ss idxs).totalChunks = ss.totalChunks := by
  induction idxs with
  | nil => intro ss; rfl
  | cons i rest ih =>
    intro ss
    show (serverRun (serverPatch ss i) rest).totalChunks = ss.totalChunks
    rw [ih]
    rfl

theorem insert_range (k start : Nat) (h : start ≤ k) :
    insert start (Finset.range k) = Finset.range (max k (start + 1)) := by
  rcases Nat.lt_or_ge start k with hlt | hge
  · rw [Finset.insert_eq_self.2 (Finset.mem_range.2 hlt), max_eq_left (by omega)]
  · have hek : start = k := by omega
    subst hek
    rw [max_eq_right (by omega), Finset.range_succ]

theorem serverRun_range (tc : Nat) :
    ∀ (n k start : Nat), start ≤ k →
      (serverRun { totalChunks := tc, received := Finset.range k }
          (List.range' start n)).received =
        Finset.range (max k (start + n)) := by
  intro n
  induction n with
  | zero =>
    intro k start h
    simp only [List.range'_zero, serverRun, List.foldl_nil, Nat.add_zero]
    rw [max_eq_left h]
  | succ n ih =>
    intro k start h
    rw [List.range'_succ]
    show (serverRun (serverPatch { totalChunks := tc, received := Finset.range k } start)
      (List.range' (start + 1) n)).received = Finset.range (max k (start + (n + 1)))
    have hpatch : serverPatch { totalChunks := tc, received := Finset.range k } start =
        { totalChunks := tc, received := Finset.range (max k (start + 1)) } := by
      simp [serverPatch, insert_range k start h]
    rw [hpatch, ih (max k (start + 1)) (start + 1) (le_max_right _ _)]
    have : max (max k (start + 1)) (start + 1 + n) = max k (start + (n + 1)) := by
      rw [max_assoc]
      have h1 : max (start + 1) (start + 1 + n) = start + 1 + n :=
        max_eq_right (by omega)
      rw [h1]
      have h2 : start + 1 + n = start + (n + 1) := by omega
      rw [h2]
    rw [this]

theorem serverChunkEnv_eq (tc k start i : Nat) (h1 : start ≤ k) (h2 : start ≤ i) :
    serverChunkEnv { totalChunks := tc, received := Finset.range k } start i =
      ChunkEnv.ok (max k (i + 1)) (max k (i + 1) * 100 / tc) := by
  have h3 : start + (i + 1 - start) = i + 1 := by omega
  have hrec := serverRun_range tc (i + 1 - start) k start h1
  rw [h3] at hrec
  have htc := serverRun_totalChunks (List.range' start (i + 1 - start))
    { totalChunks := tc, received := Finset.range k }
  simp [serverChunkEnv, ServerSession.totalReceived, ServerSession.progressOf,
    hrec, htc, Finset.card_range]

/-! Chain lemmas for the progress sequence. -/

theorem chain'_append_100 {l : List Nat} (h : List.Chain' (· ≤ ·) l)
    (hb : ∀ x ∈ l, x ≤ 100) : List.Chain' (· ≤ ·) (l ++ [100]) := by
  rw [List.chain'_append]
  refine ⟨h, List.chain'_singleton _, ?_⟩
  intro x hx y hy
  simp only [List.head?_cons, Option.mem_def, Option.some.injEq] at hy
  subst hy
  exact hb x (List.mem_of_getLast?_eq_some hx)

theorem mem_progressList {evs : List Event} {x : Nat}
    (h : x ∈ progressList evs) :
    ∃ u, Event.stored (some u) ∈ evs ∧ u.progress = x := by
  obtain ⟨e, he, hx⟩ := List.mem_filterMap.1 h
  cases e with
  | stored o =>
    cases o with
    | none => simp at hx
    | some u =>
      simp only [Option.some.injEq] at hx
      exact ⟨u, he, hx⟩
  | initReq => simp at hx
  | statusReq a => simp at hx
  | chunkSent a b c => simp at hx
  | chunkAcked a b c => simp at hx
  | completeReq a => simp at hx
  | deleteReq a => simp at hx
  | abortSignal => simp at hx
  | logDeleteFailure => simp at hx

theorem uploadLoop_progress_inv (file : List Nat) (uid : String)
    (env : Nat → ChunkEnv) (tc : Nat) (g : Nat → Nat) :
    ∀ (n start : Nat) (s : ProviderState) (v : UploadSession),
      s.currentUpload = some v →
      v.totalChunks = tc →
      v.progress = v.uploadedChunks * 100 / tc →
      v.uploadedChunks ≤ tc →
      (∀ i, start ≤ i → i < start + n → env i = ChunkEnv.ok (g i) (g i * 100 / tc)) →
      (∀ i, start ≤ i → i + 1 < start + n → g i ≤ g (i + 1)) →
      (∀ i, start ≤ i → i < start + n → g i ≤ tc) →
      (0 < n → v.uploadedChunks ≤ g start) →
      (uploadLoop file uid env (List.range' start n) s).2.2 = LoopExit.finished ∧
      (∀ u, Event.stored (some u) ∈ (uploadLoop file uid env (List.range' start n) s).2.1 →
        u.totalChunks = tc ∧ u.progress = u.uploadedChunks * 100 / tc ∧
          u.uploadedChunks ≤ tc) ∧
      List.Chain' (· ≤ ·)
        (v.progress :: progressList (uploadLoop file uid env (List.range' start n) s).2.1) ∧
      ∃ v', (uploadLoop file uid env (List.range' start n) s).1.currentUpload = some v' ∧
        v'.totalChunks = tc ∧ v'.progress = v'.uploadedChunks * 100 / tc ∧
        v'.uploadedChunks ≤ tc ∧ v.progress ≤ v'.progress ∧
        v'.uploadedChunks = if n = 0 then v.uploadedChunks else g (start + n - 1) := by
  intro n
  induction n with
  | zero =>
    intro start s v hcv htc hpr hub hok hmono hbound hc
    refine ⟨by simp [uploadLoop], by simp [uploadLoop, progressList], ?_, ?_⟩
    · simp [uploadLoop, progressList, List.chain'_singleton]
    · exact ⟨v, by simpa [uploadLoop] using hcv, htc, hpr, hub, le_refl _, by simp⟩
  | succ n ih =>
    intro start s v hcv htc hpr hub hok hmono hbound hc
    have hgs : env start = ChunkEnv.ok (g start) (g start * 100 / tc) :=
      hok start (le_refl _) (by omega)
    rw [List.range'_succ]
    have hvc : v.uploadedChunks ≤ g start := hc (by omega)
    have hfv : (updateUpload (fun u => { u with uploadedChunks := g start, progress := g start * 100 / tc, status := UploadStatus.uploading }) s).1.currentUpload = some { v with uploadedChunks := g start, progress := g start * 100 / tc, status := UploadStatus.uploading } := by
      simp [updateUpload, setCurrent, hcv]
    have hih := ih (start + 1)
      ((updateUpload (fun u => { u with uploadedChunks := g start, progress := g start * 100 / tc, status := UploadStatus.uploading }) s).1)
      ({ v with uploadedChunks := g start, progress := g start * 100 / tc, status := UploadStatus.uploading })
      hfv (by simpa using htc) (by simp) (by simpa using hbound start (le_refl _) (by omega))
      (fun i hi1 hi2 => hok i (by omega) (by omega))
      (fun i hi1 hi2 => hmono i (by omega) (by omega))
      (fun i hi1 hi2 => hbound i (by omega) (by omega))
      (fun hn => by simpa using hmono start (le_refl _) (by omega))
    obtain ⟨hexit, hstored, hchain, v', hv'cu, hv'tc, hv'pr, hv'ub, hv'mono, hv'uc⟩ := hih
    have hstep : v.progress ≤ g start * 100 / tc := by
      rw [hpr]
      exact Nat.div_le_div_right (Nat.mul_le_mul_right 100 hvc)
    constructor
    · simp only [uploadLoop, hgs]
      exact hexit
    constructor
    · intro u hu
      simp only [uploadLoop, hgs, List.mem_cons, List.mem_append] at hu
      rcases hu with hu | hu | hu | hu
      · cases hu
      · cases hu
      · rw [updateUpload_snd, hcv] at hu
        simp only [List.mem_singleton, Option.map_some] at hu
        cases hu
        exact ⟨by simpa using htc, by simp, by simpa using hbound start (le_refl _) (by omega)⟩
      · exact hstored u hu
    constructor
    · simp only [uploadLoop, hgs]
      rw [updateUpload_snd, hcv]
      simp only [progressList, List.filterMap_cons, List.filterMap_append,
        List.filterMap_nil, Option.map_some', List.singleton_append]
      rw [List.chain'_cons]
      constructor
      · exact hstep
      · simpa [progressList] using hchain
    · refine ⟨v', ?_, hv'tc, hv'pr, hv'ub, le_trans hstep (by simpa using hv'mono), ?_⟩
      · simp only [uploadLoop, hgs]
        exact hv'cu
      · rw [hv'uc]
        by_cases hn : n = 0
        · subst hn; simp
        · have h1 : ¬(n + 1 = 0) := by omega
          simp only [hn, if_false, h1]
          congr 1
          omega

theorem mul100_div_le (tc : Nat) (h0 : 0 < tc) (a : Nat) (ha : a ≤ tc) :
    a * 100 / tc ≤ 100 := by
  have h1 : a * 100 ≤ tc * 100 := Nat.mul_le_mul_right 100 ha
  have h2 : tc * 100 / tc = 100 := Nat.mul_div_cancel_left 100 h0
  calc a * 100 / tc ≤ tc * 100 / tc := Nat.div_le_div_right h1
    _ = 100 := h2

theorem tc_mul100_div (tc : Nat) (h0 : 0 < tc) : tc * 100 / tc = 100 :=
  Nat.mul_div_cancel_left 100 h0

/-- The upload environment induced by composing the client with the
spec-modelled server store whose state holds exactly the chunk prefix
0..k-1: the status reply and every chunk acknowledgment carry the
server-computed totalReceived and progress. -/
def prefixServerEnv (tc k : Nat) (start : Nat) : UploadEnv :=
  { statusEnv := StatusEnv.ok
      (ServerSession.totalReceived { totalChunks := tc, received := Finset.range k })
      (ServerSession.progressOf { totalChunks := tc, received := Finset.range k }),
    chunkEnv := serverChunkEnv { totalChunks := tc, received := Finset.range k } start,
    completeEnv := CompleteEnv.ok }

/-- Claim C6: against the spec-modelled server, every persisted session
along a run keeps progress = floor(uploadedChunks * 100 / totalChunks),
progress never exceeds 100, and the sequence of persisted progress
values never decreases within the session. -/
theorem C6_progress_invariant (file : List Nat) (ud : UploadSession)
    (s : ProviderState) (tc k : Nat)
    (htc : ud.totalChunks = tc) (h0 : 0 < tc) (hk : k ≤ tc)
    (huc : ud.uploadedChunks ≤ k)
    (hpr : ud.progress = ud.uploadedChunks * 100 / tc)
    (hs : s.currentUpload = some ud) :
    (∀ u, Event.stored (some u) ∈
        (performUpload file ud
          (prefixServerEnv tc k (if 0 < ud.uploadedChunks then k else 0)) s).2.1 →
      u.progress = u.uploadedChunks * 100 / u.totalChunks ∧ u.progress ≤ 100) ∧
    List.Chain' (· ≤ ·) (ud.progress :: progressList
      (performUpload file ud
        (prefixServerEnv tc k (if 0 < ud.uploadedChunks then k else 0)) s).2.1) := by
  have hTR : ServerSession.totalReceived
      { totalChunks := tc, received := Finset.range k } = k := by
    simp [ServerSession.totalReceived]
  have hPF : ServerSession.progressOf
      { totalChunks := tc, received := Finset.range k } = k * 100 / tc := by
    simp [ServerSession.progressOf, ServerSession.totalReceived]
  by_cases hpos : 0 < ud.uploadedChunks
  · rw [if_pos hpos]
    have hstart : puStart ud (prefixServerEnv tc k k).statusEnv s = k := by
      have h1 := puStart_pos_ok ud
        (ServerSession.totalReceived { totalChunks := tc, received := Finset.range k })
        (ServerSession.progressOf { totalChunks := tc, received := Finset.range k })
        s hpos
      rw [show (prefixServerEnv tc k k).statusEnv = StatusEnv.ok
        (ServerSession.totalReceived { totalChunks := tc, received := Finset.range k })
        (ServerSession.progressOf { totalChunks := tc, received := Finset.range k })
        from rfl, h1, hTR]
    have hst1 : (puState1 ud (prefixServerEnv tc k k).statusEnv s).currentUpload =
        some { ud with uploadedChunks := k, progress := k * 100 / tc } := by
      simp only [puState1, prefixServerEnv, reconcile, hpos, if_true,
        updateUpload, setCurrent, hs, Option.map_some', hTR, hPF]
    obtain ⟨hexit, hstored, hchain, v', hv'cu, hv'tc, hv'pr, hv'ub, hv'mono, hv'uc⟩ :=
      uploadLoop_progress_inv file ud.uploadId (prefixServerEnv tc k k).chunkEnv tc
        (fun i => max k (i + 1))
        (ud.totalChunks - puStart ud (prefixServerEnv tc k k).statusEnv s)
        (puStart ud (prefixServerEnv tc k k).statusEnv s)
        (puState1 ud (prefixServerEnv tc k k).statusEnv s)
        { ud with uploadedChunks := k, progress := k * 100 / tc }
        hst1 (by simpa using htc) (by simp) (by simpa using hk)
        (fun i hi1 hi2 => by
          rw [hstart] at hi1
          exact serverChunkEnv_eq tc k k i (le_refl k) hi1)
        (fun i hi1 hi2 => max_le_max (le_refl k) (by omega))
        (fun i hi1 hi2 => by
          rw [hstart] at hi1 hi2
          rw [htc] at hi2
          exact max_le hk (by omega))
        (fun hn => by
          show k ≤ max k _
          exact le_max_left k _)
    have hexitP : (puLoop file ud (prefixServerEnv tc k k) s).2.2 =
        LoopExit.finished := hexit
    have hstoredP : ∀ u, Event.stored (some u) ∈
        (puLoop file ud (prefixServerEnv tc k k) s).2.1 →
        u.totalChunks = tc ∧ u.progress = u.uploadedChunks * 100 / tc ∧
          u.uploadedChunks ≤ tc := hstored
    have hchainP : List.Chain' (· ≤ ·) ((k * 100 / tc) :: progressList
        (puLoop file ud (prefixServerEnv tc k k) s).2.1) := hchain
    have hv'cuP : (puLoop file ud (prefixServerEnv tc k k) s).1.currentUpload =
        some v' := hv'cu
    have hn' := hv'uc
    rw [hstart, htc] at hn'
    have hvtc : v'.uploadedChunks = tc := by
      rw [hn']
      by_cases hzero : tc - k = 0
      · rw [if_pos hzero]
        show k = tc
        omega
      · rw [if_neg hzero]
        show max k (k + (tc - k) - 1 + 1) = tc
        have he : k + (tc - k) - 1 + 1 = tc := by omega
        rw [he]
        exact max_eq_right hk
    have heta : puLoop file ud (prefixServerEnv tc k k) s =
        ((puLoop file ud (prefixServerEnv tc k k) s).1,
          (puLoop file ud (prefixServerEnv tc k k) s).2.1, LoopExit.finished) := by
      rw [← hexitP]
    have hAL : (afterLoop ud.uploadId (prefixServerEnv tc k k).completeEnv
        (puLoop file ud (prefixServerEnv tc k k) s)).2.1 =
        (puLoop file ud (prefixServerEnv tc k k) s).2.1 ++
          (Event.completeReq ud.uploadId ::
            [Event.stored (some { v' with status := UploadStatus.completed, progress := 100 })]) := by
      rw [heta]
      show (afterLoop ud.uploadId CompleteEnv.ok _).2.1 = _
      simp [afterLoop, updateUpload_snd, hv'cuP]
    have hevs0 : (reconcile ud (prefixServerEnv tc k k).statusEnv
        { s with controllerAborted := some false }).2.2 =
        Event.statusReq ud.uploadId ::
          [Event.stored (some { ud with uploadedChunks := k, progress := k * 100 / tc })] := by
      simp only [prefixServerEnv, reconcile, hpos, if_true, updateUpload,
        setCurrent, hs, Option.map_some', hTR, hPF]
    have hEV : (performUpload file ud (prefixServerEnv tc k k) s).2.1 =
        (Event.statusReq ud.uploadId ::
          [Event.stored (some { ud with uploadedChunks := k, progress := k * 100 / tc })]) ++
          ((puLoop file ud (prefixServerEnv tc k k) s).2.1 ++
            (Event.completeReq ud.uploadId ::
              [Event.stored (some { v' with status := UploadStatus.completed, progress := 100 })])) := by
      rw [performUpload_trace, hevs0, hAL]
    have hpl0 : progressList (Event.statusReq ud.uploadId ::
        [Event.stored (some { ud with uploadedChunks := k, progress := k * 100 / tc })]) =
        [k * 100 / tc] := by
      simp [progressList]
    have hplx : progressList (Event.completeReq ud.uploadId ::
        [Event.stored (some { v' with status := UploadStatus.completed, progress := 100 })]) =
        [100] := by
      simp [progressList]
    constructor
    · intro u hu
      rw [hEV] at hu
      rcases List.mem_append.1 hu with hu | hu
      · rcases List.mem_cons.1 hu with hu | hu
        · exact absurd hu (by simp)
        · rcases List.mem_cons.1 hu with hu | hu
          · have h2 : u = { ud with uploadedChunks := k, progress := k * 100 / tc } := by
              have h3 := hu
              injection h3 with h4
              injection h4
            subst h2
            refine ⟨?_, ?_⟩
            · show k * 100 / tc = k * 100 / ud.totalChunks
              rw [htc]
            · exact mul100_div_le tc h0 k hk
          · cases hu
      · rcases List.mem_append.1 hu with hu | hu
        · obtain ⟨t1, t2, t3⟩ := hstoredP u hu
          refine ⟨by rw [t1]; exact t2, ?_⟩
          rw [t2]
          exact mul100_div_le tc h0 _ t3
        · rcases List.mem_cons.1 hu with hu | hu
          · exact absurd hu (by simp)
          · rcases List.mem_cons.1 hu with hu | hu
            · have h2 : u = { v' with status := UploadStatus.completed, progress := 100 } := by
                have h3 := hu
                injection h3 with h4
                injection h4
              subst h2
              refine ⟨?_, le_refl 100⟩
              show (100 : Nat) = v'.uploadedChunks * 100 / v'.totalChunks
              rw [hvtc, hv'tc]
              exact (tc_mul100_div tc h0).symm
            · cases hu
    · rw [hEV, progressList_append, progressList_append, hpl0, hplx]
      have hassoc : ud.progress :: ([k * 100 / tc] ++
          (progressList (puLoop file ud (prefixServerEnv tc k k) s).2.1 ++ [100])) =
          (ud.progress :: (k * 100 / tc) ::
            progressList (puLoop file ud (prefixServerEnv tc k k) s).2.1) ++ [100] := by
        simp
      rw [hassoc]
      apply chain'_append_100
      · rw [List.chain'_cons]
        constructor
        · rw [hpr]
          exact Nat.div_le_div_right (Nat.mul_le_mul_right 100 huc)
        · exact hchainP
      · intro x hx
        rcases List.mem_cons.1 hx with hx | hx
        · subst hx
          rw [hpr]
          exact mul100_div_le tc h0 _ (le_trans huc hk)
        rcases List.mem_cons.1 hx with hx | hx
        · subst hx
          exact mul100_div_le tc h0 k hk
        · obtain ⟨u, humem, hupr⟩ := mem_progressList hx
          obtain ⟨t1, t2, t3⟩ := hstoredP u humem
          rw [← hupr, t2]
          exact mul100_div_le tc h0 _ t3
  · rw [if_neg hpos]
    have huc0 : ud.uploadedChunks = 0 := by omega
    have hstart : puStart ud (prefixServerEnv tc k 0).statusEnv s = 0 :=
      puStart_zero ud _ s huc0
    have hst0 : puState1 ud (prefixServerEnv tc k 0).statusEnv s =
        { s with controllerAborted := some false } := by
      simp [puState1, reconcile_zero ud _ _ huc0]
    have hst1 : (puState1 ud (prefixServerEnv tc k 0).statusEnv s).currentUpload =
        some ud := by
      rw [hst0]
      exact hs
    obtain ⟨hexit, hstored, hchain, v', hv'cu, hv'tc, hv'pr, hv'ub, hv'mono, hv'uc⟩ :=
      uploadLoop_progress_inv file ud.uploadId (prefixServerEnv tc k 0).chunkEnv tc
        (fun i => max k (i + 1))
        (ud.totalChunks - puStart ud (prefixServerEnv tc k 0).statusEnv s)
        (puStart ud (prefixServerEnv tc k 0).statusEnv s)
        (puState1 ud (prefixServerEnv tc k 0).statusEnv s)
        ud hst1 htc hpr (by omega)
        (fun i hi1 hi2 =>
          serverChunkEnv_eq tc k 0 i (Nat.zero_le k) (Nat.zero_le i))
        (fun i hi1 hi2 => max_le_max (le_refl k) (by omega))
        (fun i hi1 hi2 => by
          rw [hstart] at hi1 hi2
          rw [htc] at hi2
          exact max_le hk (by omega))
        (fun hn => by
          rw [huc0]
          exact Nat.zero_le _)
    have hexitP : (puLoop file ud (prefixServerEnv tc k 0) s).2.2 =
        LoopExit.finished := hexit
    have hstoredP : ∀ u, Event.stored (some u) ∈
        (puLoop file ud (prefixServerEnv tc k 0) s).2.1 →
        u.totalChunks = tc ∧ u.progress = u.uploadedChunks * 100 / tc ∧
          u.uploadedChunks ≤ tc := hstored
    have hchainP : List.Chain' (· ≤ ·) (ud.progress :: progressList
        (puLoop file ud (prefixServerEnv tc k 0) s).2.1) := hchain
    have hv'cuP : (puLoop file ud (prefixServerEnv tc k 0) s).1.currentUpload =
        some v' := hv'cu
    have hn' := hv'uc
    rw [hstart, htc] at hn'
    have hvtc : v'.uploadedChunks = tc := by
      rw [hn']
      have hzero : ¬(tc - 0 = 0) := by omega
      rw [if_neg hzero]
      show max k (0 + (tc - 0) - 1 + 1) = tc
      have he : 0 + (tc - 0) - 1 + 1 = tc := by omega
      rw [he]
      exact max_eq_right hk
    have heta : puLoop file ud (prefixServerEnv tc k 0) s =
        ((puLoop file ud (prefixServerEnv tc k 0) s).1,
          (puLoop file ud (prefixServerEnv tc k 0) s).2.1, LoopExit.finished) := by
      rw [← hexitP]
    have hAL : (afterLoop ud.uploadId (prefixServerEnv tc k 0).completeEnv
        (puLoop file ud (prefixServerEnv tc k 0) s)).2.1 =
        (puLoop file ud (prefixServerEnv tc k 0) s).2.1 ++
          (Event.completeReq ud.uploadId ::
            [Event.stored (some { v' with status := UploadStatus.completed, progress := 100 })]) := by
      rw [heta]
      show (afterLoop ud.uploadId CompleteEnv.ok _).2.1 = _
      simp [afterLoop, updateUpload_snd, hv'cuP]
    have hevs0 : (reconcile ud (prefixServerEnv tc k 0).statusEnv
        { s with controllerAborted := some false }).2.2 = [] := by
      rw [reconcile_zero ud _ _ huc0]
    have hEV : (performUpload file ud (prefixServerEnv tc k 0) s).2.1 =
        (puLoop file ud (prefixServerEnv tc k 0) s).2.1 ++
          (Event.completeReq ud.uploadId ::
            [Event.stored (some { v' with status := UploadStatus.completed, progress := 100 })]) := by
      rw [performUpload_trace, hevs0, hAL]
      rfl
    have hplx : progressList (Event.completeReq ud.uploadId ::
        [Event.stored (some { v' with status := UploadStatus.completed, progress := 100 })]) =
        [100] := by
      simp [progressList]
    constructor
    · intro u hu
      rw [hEV] at hu
      rcases List.mem_append.1 hu with hu | hu
      · obtain ⟨t1, t2, t3⟩ := hstoredP u hu
        refine ⟨by rw [t1]; exact t2, ?_⟩
        rw [t2]
        exact mul100_div_le tc h0 _ t3
      · rcases List.mem_cons.1 hu with hu | hu
        · exact absurd hu (by simp)
        · rcases List.mem_cons.1 hu with hu | hu
          · have h2 : u = { v' with status := UploadStatus.completed, progress := 100 } := by
              have h3 := hu
              injection h3 with h4
              injection h4
            subst h2
            refine ⟨?_, le_refl 100⟩
            show (100 : Nat) = v'.uploadedChunks * 100 / v'.totalChunks
            rw [hvtc, hv'tc]
            exact (tc_mul100_div tc h0).symm
          · cases hu
    · rw [hEV, progressList_append, hplx]
      have hassoc : ud.progress ::
          (progressList (puLoop file ud (prefixServerEnv tc k 0) s).2.1 ++ [100]) =
          (ud.progress ::
            progressList (puLoop file ud (prefixServerEnv tc k 0) s).2.1) ++ [100] := by
        simp
      rw [hassoc]
      apply chain'_append_100
      · exact hchainP
      · intro x hx
        rcases List.mem_cons.1 hx with hx | hx
        · subst hx
          rw [hpr]
          exact mul100_div_le tc h0 _ (le_trans huc hk)
        · obtain ⟨u, humem, hupr⟩ := mem_progressList hx
          obtain ⟨t1, t2, t3⟩ := hstoredP u humem
          rw [← hupr, t2]
          exact mul100_div_le tc h0 _ t3

/-- Witness for C6: a concrete fresh one-chunk run against the
spec-modelled server keeps the progress invariant and monotonicity. -/
theorem C6_witness :
    (∀ u, Event.stored (some u) ∈
        (performUpload [1, 2, 3] sampleSession
          (prefixServerEnv 1 0 (if 0 < sampleSession.uploadedChunks then 0 else 0))
          sampleState).2.1 →
      u.progress = u.uploadedChunks * 100 / u.totalChunks ∧ u.progress ≤ 100) ∧
    List.Chain' (· ≤ ·) (sampleSession.progress :: progressList
      (performUpload [1, 2, 3] sampleSession
        (prefixServerEnv 1 0 (if 0 < sampleSession.uploadedChunks then 0 else 0))
        sampleState).2.1) :=
  C6_progress_invariant [1, 2, 3] sampleSession sampleState 1 0 rfl (by decide)
    (by decide) (by decide) (by decide) rfl
